import Mathlib

/-!
# Verification of the `AssetPreloader` scheduler (src/script.js)

This file gives a shallow embedding of the `AssetPreloader` class and proves
properties of its scheduler: the admission loop (`_processQueue`), the retry
controller (`_attemptLoad`), the dependency gate, registration (`add`), the
progress/ETA report (`_reportProgress`) and pause/resume.

The embedding models the single-threaded cooperative-concurrency semantics of
the JavaScript source as a deterministic transition function `step` over an
explicit `State`, driven by an external list of `Step` actions.  The actions
are the suspension points of the real program: an in-flight fetch settling
(with its success/failure outcome supplied by the environment), a backoff
delay elapsing, a settled `_attemptLoad` promise running its `.finally`
handler, the public API calls (`add`, `load`, `pause`, `resume`), and the
wall clock advancing.  Everything that the source executes synchronously
between two suspension points is performed atomically inside one `step`.

Wall-clock time (`Date.now()`) is modelled by a `now : Nat` field advanced by
`Step.tick`.  JavaScript numbers are modelled by `Nat` (counters, times) and
`Int` (`stats.remaining`, which is decremented); `Math.round(a / b)` on
non-negative values is modelled by exact rational rounding
(`(2 * a + b) / (2 * b)` in `Nat` arithmetic), which agrees with the source's
binary floating point at every concrete input used in this file.
-/

set_option autoImplicit false

namespace Preloader

/-- The three recognized priority classes (`"high" | "medium" | "low"`). -/
inductive Priority where
  | high
  | medium
  | low
deriving DecidableEq, Repr

/-- A record with one value per priority class, modelling the source's plain
objects `{ high: …, medium: …, low: … }` (queues, in-flight counters,
concurrency limits, per-class stats). -/
structure PMap (α : Type) where
  high : α
  medium : α
  low : α
deriving DecidableEq, Repr

/-- Read the field for a priority class (`obj[priority]`). -/
def PMap.get {α : Type} (m : PMap α) : Priority → α
  | .high => m.high
  | .medium => m.medium
  | .low => m.low

/-- Write the field for a priority class (`obj[priority] = v`). -/
def PMap.set {α : Type} (m : PMap α) : Priority → α → PMap α
  | .high, v => { m with high := v }
  | .medium, v => { m with medium := v }
  | .low, v => { m with low := v }

/-- A descriptor as passed to `add`, before normalization: `timeout`,
`retries`, `priority` and `dependsOn` may be absent.  (In the source an
unrecognized priority string would crash `add` on `this.queue[...]`; the
embedding types the field with the three recognized classes.) -/
structure RawAsset where
  id : String
  type : String
  url : String
  timeout : Option Nat := none
  retries : Option Nat := none
  priority : Option Priority := none
  dependsOn : Option (List String) := none
deriving DecidableEq, Repr

/-- A descriptor after the normalization performed at the top of `add`. -/
structure Asset where
  id : String
  type : String
  url : String
  timeout : Nat
  retries : Nat
  priority : Priority
  dependsOn : List String
deriving DecidableEq, Repr

/-- Lines 34-37 of `add`:
`asset.timeout = asset.timeout || 3000` (so an explicit `0` is also replaced,
`0` being falsy), `asset.retries = asset.retries ?? 1` (an explicit `0` is
kept), `asset.priority = asset.priority || "medium"`,
`asset.dependsOn = asset.dependsOn || []`. -/
def normalizeAsset (r : RawAsset) : Asset :=
  { id := r.id
    type := r.type
    url := r.url
    timeout := match r.timeout with
      | some n => if n = 0 then 3000 else n
      | none => 3000
    retries := r.retries.getD 1
    priority := r.priority.getD .medium
    dependsOn := r.dependsOn.getD [] }

/-- Where an in-flight `_attemptLoad` task is suspended:
`awaitFetch` = at `await this._realLoad(asset)` on the current attempt;
`awaitDelay delayMs` = at `await this._delay(delayMs)` after a failed,
non-final attempt; `settled` = `_attemptLoad` has returned and its
`.finally` handler has not run yet. -/
inductive Phase where
  | awaitFetch
  | awaitDelay (delayMs : Nat)
  | settled
deriving DecidableEq, Repr

/-- One in-flight `_attemptLoad(asset)` task.  `attempt` is the source's
1-based loop counter; `start` is the `Date.now()` captured at line 90
(admission happens synchronously, so this is the clock at admission). -/
structure Task where
  asset : Asset
  attempt : Nat
  phase : Phase
  start : Nat
deriving DecidableEq, Repr

/-- `true` once the task's `_attemptLoad` promise has resolved. -/
def Task.isSettled (t : Task) : Bool :=
  match t.phase with
  | .settled => true
  | _ => false

/-- Per-class stats record (`{ total, done }`). -/
structure ClassStats where
  total : Nat
  done : Nat
deriving DecidableEq, Repr

/-- The `this.stats` record.  `remaining` is an `Int` because the source
decrements it. -/
structure Stats where
  total : Nat
  loaded : Nat
  failed : Nat
  remaining : Int
  perClass : PMap ClassStats
deriving DecidableEq, Repr

/-- Payload of a `progress` event (`_reportProgress`). -/
structure Progress where
  total : Nat
  loaded : Nat
  failed : Nat
  remaining : Int
  percentage : Nat
  current : String
  etaMs : Int
  perClass : PMap ClassStats
deriving DecidableEq, Repr

/-- The events the scheduler emits, with the payload fields the source
passes.  The `error` payload's underlying reason object is opaque to the
scheduler and is not modelled.  `exited` models the spec's `exit` event
name. -/
inductive Event where
  | start
  | progress (p : Progress)
  | load (a : Asset)
  | error (a : Asset)
  | retry (a : Asset) (attempt : Nat)
  | complete (success : List String) (failed : List String) (durationMs : Nat)
  | exited
deriving DecidableEq, Repr

/-- The whole mutable state of one `AssetPreloader` instance, plus the
wall clock `now` and the ordered `trace` of emitted events. -/
structure State where
  assets : List Asset
  stats : Stats
  loadedAssets : List String
  failedAssets : List String
  queue : PMap (List Asset)
  concurrent : PMap Nat
  maxConcurrent : PMap Nat
  paused : Bool
  running : Bool
  etaSamples : List Nat
  startTime : Nat
  now : Nat
  tasks : List Task
  trace : List Event
deriving DecidableEq, Repr

/-- The state of a freshly constructed `AssetPreloader(maxConcurrent)`. -/
def init (limits : PMap Nat) : State :=
  { assets := []
    stats := { total := 0, loaded := 0, failed := 0, remaining := 0
               perClass := ⟨⟨0, 0⟩, ⟨0, 0⟩, ⟨0, 0⟩⟩ }
    loadedAssets := []
    failedAssets := []
    queue := ⟨[], [], []⟩
    concurrent := ⟨0, 0, 0⟩
    maxConcurrent := limits
    paused := false
    running := false
    etaSamples := []
    startTime := 0
    now := 0
    tasks := []
    trace := [] }

/-- The constructor's default limits `{ high: 3, medium: 2, low: 1 }`. -/
def defaultLimits : PMap Nat := ⟨3, 2, 1⟩

/-- `emit` appends the event to the synchronous-dispatch trace (subscribers
are called synchronously in order; the trace records the emissions). -/
def emit (e : Event) (s : State) : State :=
  { s with trace := s.trace ++ [e] }

/-- JavaScript `Set.prototype.add` on a set represented as its
insertion-ordered element list (`Array.from` of the set). -/
def addSet (l : List String) (i : String) : List String :=
  if i ∈ l then l else l ++ [i]

/-- JavaScript `Map.prototype.set` keyed by `id`, on a map represented as
its insertion-ordered entry list. -/
def mapSet : List Asset → Asset → List Asset
  | [], a => [a]
  | b :: bs, a => if b.id = a.id then a :: bs else b :: mapSet bs a

/-- The dependency gate (lines 62-64): every id in `dependsOn` is in the
loaded set or the failed set. -/
def eligible (s : State) (a : Asset) : Bool :=
  a.dependsOn.all fun d => d ∈ s.loadedAssets || d ∈ s.failedAssets

/-- The `switch (type)` of `_realLoad` has cases for exactly these kinds;
the `default` case rejects without invoking any transport. -/
def supportedType (ty : String) : Bool :=
  ty = "json" || ty = "text" || ty = "image" || ty = "script"

/-- `Math.round (n / d)` for non-negative operands, as exact rational
rounding (round half up).  For `d = 0` the source would produce `NaN`; this
definition returns `0`, and every use below is guarded so that `d = 0` is
unreachable there. -/
def jsRoundDiv (n d : Nat) : Nat :=
  (2 * n + d) / (2 * d)

/-- Lines 170-174: the rounded mean of the ETA samples, `0` when there are
no samples. -/
def avgTime (samples : List Nat) : Nat :=
  if samples.length = 0 then 0 else jsRoundDiv samples.sum samples.length

/-- The `progress` payload built by `_reportProgress` (lines 166-188):
`percentage = Math.round((loaded + failed) / total * 100)` and
`etaMs = avgTime * remaining` — note there is no division by any
concurrency limit. -/
def progressOf (s : State) (current : String) : Progress :=
  { total := s.stats.total
    loaded := s.stats.loaded
    failed := s.stats.failed
    remaining := s.stats.remaining
    percentage := jsRoundDiv ((s.stats.loaded + s.stats.failed) * 100) s.stats.total
    current := current
    etaMs := (avgTime s.etaSamples : Int) * s.stats.remaining
    perClass := s.stats.perClass }

/-- `_reportProgress(currentId)`: emit the `progress` snapshot. -/
def reportProgress (s : State) (current : String) : State :=
  emit (.progress (progressOf s current)) s

/-- One iteration budget of the `while` loop of `_processQueue` for one
priority class (lines 57-75), with explicit fuel.  Each loop iteration
either admits the front descriptor (queue shrinks by one) or requeues it to
the tail and breaks, so fuel = initial queue length suffices exactly. -/
def processClassLoop : State → Priority → Nat → State
  | s, _, 0 => s
  | s, p, fuel + 1 =>
    if s.concurrent.get p < s.maxConcurrent.get p then
      match s.queue.get p with
      | [] => s
      | a :: rest =>
        if eligible s a then
          -- lines 66-67: increment the class's in-flight counter and start
          -- `_attemptLoad(asset)`; it runs synchronously up to its first
          -- `await`, so the task starts in `awaitFetch` with `start = now`.
          processClassLoop
            { s with queue := s.queue.set p rest
                     concurrent := s.concurrent.set p (s.concurrent.get p + 1)
                     tasks := s.tasks ++ [⟨a, 1, .awaitFetch, s.now⟩] }
            p fuel
        else
          -- lines 71-73: push back to the tail and break.
          { s with queue := s.queue.set p (rest ++ [a]) }
    else s

/-- The full `while` loop for one priority class. -/
def processClass (s : State) (p : Priority) : State :=
  processClassLoop s p (s.queue.get p).length

/-- `_processQueue()` (lines 53-87): skip if paused or not running; service
the classes in the fixed order high, medium, low; then, if every registered
resource is terminal by the stats counters, clear `running` and emit
`complete` with the insertion-ordered loaded and failed id lists and the
elapsed time. -/
def processQueue (s : State) : State :=
  if s.paused || !s.running then s
  else
    let s1 := processClass (processClass (processClass s .high) .medium) .low
    if s1.stats.loaded + s1.stats.failed ≥ s1.stats.total then
      emit (.complete s1.loadedAssets s1.failedAssets (s1.now - s1.startTime))
        { s1 with running := false }
    else s1

/-- `l[i]` as an `Option`, by recursion (used to address a task). -/
def getTask? : List Task → Nat → Option Task
  | [], _ => none
  | t :: _, 0 => some t
  | _ :: ts, i + 1 => getTask? ts i

/-- Replace the task at position `i` (out-of-range: no change). -/
def setTask : List Task → Nat → Task → List Task
  | [], _, _ => []
  | _ :: ts, 0, t' => t' :: ts
  | t :: ts, i + 1, t' => t :: setTask ts i t'

/-- Remove the task at position `i` (out-of-range: no change). -/
def removeTask : List Task → Nat → List Task
  | [], _ => []
  | _ :: ts, 0 => ts
  | t :: ts, i + 1 => t :: removeTask ts i

/-- The success branch of `_attemptLoad` (lines 95-103): push the sample
`Date.now() - start` (measured from the start of the whole attempt cycle),
add to the loaded set, bump `loaded`, `remaining` and the class's `done`,
emit the `progress` snapshot, then emit `load`, and resolve (the task
becomes `settled`). -/
def fetchSuccess (s : State) (i : Nat) (t : Task) : State :=
  let dur := s.now - t.start
  let cs := s.stats.perClass.get t.asset.priority
  let s1 :=
    { s with etaSamples := s.etaSamples ++ [dur]
             loadedAssets := addSet s.loadedAssets t.asset.id
             stats := { s.stats with loaded := s.stats.loaded + 1
                                     remaining := s.stats.remaining - 1
                                     perClass := s.stats.perClass.set t.asset.priority
                                       { cs with done := cs.done + 1 } } }
  let s2 := reportProgress s1 t.asset.id
  let s3 := emit (.load t.asset) s2
  { s3 with tasks := setTask s3.tasks i { t with phase := .settled } }

/-- The final-failure branch of `_attemptLoad` (lines 108-114): add to the
failed set, bump `failed` and `remaining` (the class's `done` is NOT
incremented on failure in the source), emit the `progress` snapshot, then
emit `error`, and resolve. -/
def fetchFailFinal (s : State) (i : Nat) (t : Task) : State :=
  let s1 :=
    { s with failedAssets := addSet s.failedAssets t.asset.id
             stats := { s.stats with failed := s.stats.failed + 1
                                     remaining := s.stats.remaining - 1 } }
  let s2 := reportProgress s1 t.asset.id
  let s3 := emit (.error t.asset) s2
  { s3 with tasks := setTask s3.tasks i { t with phase := .settled } }

/-- The retry branch of `_attemptLoad` (lines 105-107): emit `retry` with
the 1-based attempt number, then suspend on
`_delay(500 * Math.pow(2, attempt - 1))`. -/
def fetchFailRetry (s : State) (i : Nat) (t : Task) : State :=
  let s1 := emit (.retry t.asset t.attempt) s
  { s1 with tasks := setTask s1.tasks i { t with phase := .awaitDelay (500 * 2 ^ (t.attempt - 1)) } }

/-- The environment's actions, i.e. the suspension points of the source:
`tick` advances the wall clock; `add`, `start`, `pause`, `resume` are the
public API; `fetchComplete i ok` settles the fetch awaited by task `i`
(`ok` is the transport's outcome — for an unsupported kind `_realLoad`
rejected up front, so the attempt fails regardless of `ok`); `delayDone i`
ends task `i`'s backoff delay; `finalize i` runs the `.finally` handler
attached at admission (line 67), which decrements the class's in-flight
counter and re-invokes `_processQueue`.  An action that does not match a
real pending continuation is a no-op. -/
inductive Step where
  | tick (dt : Nat)
  | add (r : RawAsset)
  | start
  | pause
  | resume
  | fetchComplete (i : Nat) (ok : Bool)
  | delayDone (i : Nat)
  | finalize (i : Nat)
deriving DecidableEq, Repr

/-- The deterministic transition function. -/
def step (s : State) : Step → State
  | .tick dt => { s with now := s.now + dt }
  | .add r =>
    -- `add(asset)` (lines 33-43): normalize, `assets.set`, enqueue into the
    -- priority class's queue, bump total/remaining/class-total.  There is
    -- no duplicate-id check in the source.
    let a := normalizeAsset r
    let cs := s.stats.perClass.get a.priority
    { s with assets := mapSet s.assets a
             queue := s.queue.set a.priority (s.queue.get a.priority ++ [a])
             stats := { s.stats with total := s.stats.total + 1
                                     remaining := s.stats.remaining + 1
                                     perClass := s.stats.perClass.set a.priority
                                       { cs with total := cs.total + 1 } } }
  | .start =>
    -- `load()` (lines 45-51): no-op if already running; record the start
    -- timestamp, emit `start`, set `running`, run the admission loop.
    if s.running then s
    else processQueue { emit .start { s with startTime := s.now } with running := true }
  | .pause =>
    -- `pause()` (lines 191-193): sets the flag only; it emits nothing.
    { s with paused := true }
  | .resume =>
    -- `resume()` (lines 195-199).
    if !s.paused then s
    else processQueue { s with paused := false }
  | .fetchComplete i ok =>
    match getTask? s.tasks i with
    | some t =>
      match t.phase with
      | .awaitFetch =>
        -- For an unsupported kind the `default` case of `_realLoad`
        -- returned `Promise.reject(...)` without invoking any transport,
        -- so the attempt fails whatever the environment's `ok` says.
        if supportedType t.asset.type && ok then fetchSuccess s i t
        else if t.attempt ≤ t.asset.retries then fetchFailRetry s i t
        else fetchFailFinal s i t
      | _ => s
    | none => s
  | .delayDone i =>
    match getTask? s.tasks i with
    | some t =>
      match t.phase with
      | .awaitDelay _ =>
        -- back to the top of the `for` loop: next attempt, next `_realLoad`.
        { s with tasks := setTask s.tasks i { t with attempt := t.attempt + 1, phase := .awaitFetch } }
      | _ => s
    | none => s
  | .finalize i =>
    match getTask? s.tasks i with
    | some t =>
      match t.phase with
      | .settled =>
        -- the `.finally` of line 67-70: decrement the class's in-flight
        -- counter and re-invoke `_processQueue`.
        processQueue
          { s with tasks := removeTask s.tasks i
                   concurrent := s.concurrent.set t.asset.priority
                     (s.concurrent.get t.asset.priority - 1) }
      | _ => s
    | none => s

/-- A run: fold the transition function over an action list. -/
def run (s : State) (acts : List Step) : State :=
  acts.foldl step s

/-- The ids passed to `add` in an action list, in order. -/
def addIds : List Step → List String
  | [] => []
  | .add r :: rest => r.id :: addIds rest
  | _ :: rest => addIds rest

/-- The events a single step appends to the trace. -/
def newEvents (s : State) (act : Step) : List Event :=
  (step s act).trace.drop s.trace.length

/-- Payload-free shape of an event (used to state order of emissions). -/
inductive Tag where
  | start
  | progress
  | load
  | error
  | retry
  | complete
  | exited
deriving DecidableEq, Repr

/-- The shape of an event. -/
def Event.tag : Event → Tag
  | .start => .start
  | .progress _ => .progress
  | .load _ => .load
  | .error _ => .error
  | .retry _ _ => .retry
  | .complete _ _ _ => .complete
  | .exited => .exited

/-- Is this a `load` event for the resource with id `i`? -/
def isLoadOf (i : String) : Event → Bool
  | .load a => a.id = i
  | _ => false

/-- Is this an `error` event for the resource with id `i`? -/
def isErrorOf (i : String) : Event → Bool
  | .error a => a.id = i
  | _ => false

/-- The number of times `_realLoad` has been invoked so far for this task.
In every phase this equals the 1-based attempt counter: while suspended at
`await _realLoad` on attempt `k`, the k-th invocation is in flight; while
backing off after a failed attempt `k`, or settled at attempt `k`, exactly
`k` invocations happened. -/
def Task.fetchesMade (t : Task) : Nat :=
  t.attempt

/-- The `etaMs` fields of the `progress` events of a trace, in order. -/
def progressEtas (tr : List Event) : List Int :=
  tr.filterMap fun e =>
    match e with
    | .progress p => some p.etaMs
    | _ => none

/-- The `remaining` fields of the `progress` events of a trace, in order. -/
def progressRemainings (tr : List Event) : List Int :=
  tr.filterMap fun e =>
    match e with
    | .progress p => some p.remaining
    | _ => none

/-- Modelled from the claim's words (spec section 4.4):
`eta = average(samples) × remaining / max(1, sumOfAllClassConcurrencyLimits)`.
(At every input where this is compared with the source below, the average is
an exact integer, so the rounding mode of `average` is immaterial.) -/
def etaSpecFormula (samples : List Nat) (remaining : Int) (limits : PMap Nat) : Int :=
  ((avgTime samples : Int) * remaining) / max 1 ((limits.high : Int) + limits.medium + limits.low)

/-! ## Basic lemmas about the small data structures -/

/-- The admission pass over the three classes (the body of `_processQueue`
before the completion check). -/
def processAll (s : State) : State :=
  processClass (processClass (processClass s .high) .medium) .low

/-! ## Run-state invariants

`InvAll` holds in every reachable state.  `InvD` additionally needs all
registered ids to be distinct (the hypothesis of spec claims C1 and C4); it
is preserved by every step whose `add` (if any) uses a fresh id. -/

/-- The ids queued in the three class queues, as a multiset. -/
def queuedIds (s : State) : Multiset String :=
  (↑(s.queue.high.map Asset.id) : Multiset String) +
    ↑(s.queue.medium.map Asset.id) + ↑(s.queue.low.map Asset.id)

/-- The ids of the tasks that are still in flight (not settled yet). -/
def activeIds (s : State) : Multiset String :=
  (↑((s.tasks.filter fun t => !t.isSettled).map fun t => t.asset.id) : Multiset String)

/-- Every registered resource, counted with multiplicity, by where it
currently is: queued, in flight, loaded or failed. -/
def allIds (s : State) : Multiset String :=
  queuedIds s + activeIds s + ↑s.loadedAssets + ↑s.failedAssets

/-- Invariants of every reachable state (no distinctness assumption). -/
structure InvAll (s : State) : Prop where
  conc_eq : ∀ p, s.concurrent.get p = (s.tasks.filter fun t => t.asset.priority == p).length
  conc_le : ∀ p, s.concurrent.get p ≤ s.maxConcurrent.get p
  queue_prio : ∀ p, ∀ a ∈ s.queue.get p, a.priority = p
  deps_resolved : ∀ t ∈ s.tasks, ∀ d ∈ t.asset.dependsOn,
    d ∈ s.loadedAssets ∨ d ∈ s.failedAssets
  attempt_le : ∀ t ∈ s.tasks, 1 ≤ t.attempt ∧ t.attempt ≤ t.asset.retries + 1
  delay_ok : ∀ t ∈ s.tasks, ∀ d, t.phase = .awaitDelay d →
    t.attempt ≤ t.asset.retries ∧ d = 500 * 2 ^ (t.attempt - 1)

/-- Invariants of every state reachable with pairwise-distinct registered
ids. -/
structure InvD (s : State) : Prop where
  ids_nodup : (s.assets.map Asset.id).Nodup
  partition : allIds s = ↑(s.assets.map Asset.id)
  settled_terminal : ∀ t ∈ s.tasks, t.isSettled = true →
    t.asset.id ∈ s.loadedAssets ∨ t.asset.id ∈ s.failedAssets
  stats_loaded : s.stats.loaded = s.loadedAssets.length
  stats_failed : s.stats.failed = s.failedAssets.length
  stats_total : s.stats.total = s.assets.length
  load_count : ∀ i : String, s.trace.countP (isLoadOf i) = if i ∈ s.loadedAssets then 1 else 0
  error_count : ∀ i : String, s.trace.countP (isErrorOf i) = if i ∈ s.failedAssets then 1 else 0

/-- The state produced by one admission (lines 66-67): pop the eligible
head, bump the class's in-flight counter, spawn the task. -/
def admitState (s : State) (p : Priority) (a : Asset) (rest : List Asset) : State :=
  { s with queue := s.queue.set p rest
           concurrent := s.concurrent.set p (s.concurrent.get p + 1)
           tasks := s.tasks ++ [⟨a, 1, .awaitFetch, s.now⟩] }

/-- The state after a backoff delay elapses (task `i` re-enters the `for`
loop and invokes `_realLoad` for the next attempt). -/
def delayDoneState (s : State) (i : Nat) (t : Task) : State :=
  { s with tasks := setTask s.tasks i { t with attempt := t.attempt + 1, phase := .awaitFetch } }

/-- The state right after the `.finally` handler body before the re-invoked
`_processQueue`: the task is removed and its class's in-flight counter is
decremented. -/
def finalizeState (s : State) (i : Nat) (t : Task) : State :=
  { s with tasks := removeTask s.tasks i
           concurrent := s.concurrent.set t.asset.priority
             (s.concurrent.get t.asset.priority - 1) }

/-- The bookkeeping state built by the success branch of `_attemptLoad`
just before it emits the `progress` snapshot (lines 95-100). -/
def successState (s : State) (t : Task) : State :=
  { s with etaSamples := s.etaSamples ++ [s.now - t.start]
           loadedAssets := addSet s.loadedAssets t.asset.id
           stats := { s.stats with loaded := s.stats.loaded + 1
                                   remaining := s.stats.remaining - 1
                                   perClass := s.stats.perClass.set t.asset.priority
                                     { s.stats.perClass.get t.asset.priority with
                                       done := (s.stats.perClass.get t.asset.priority).done + 1 } } }

/-- The bookkeeping state built by the final-failure branch of
`_attemptLoad` just before it emits the `progress` snapshot (lines
109-111). -/
def failState (s : State) (t : Task) : State :=
  { s with failedAssets := addSet s.failedAssets t.asset.id
           stats := { s.stats with failed := s.stats.failed + 1
                                   remaining := s.stats.remaining - 1 } }

/-! ## Concrete descriptors for witnesses and counterexamples -/

def rawA : RawAsset := { id := "a", type := "json", url := "u" }

def rawB : RawAsset := { id := "b", type := "json", url := "u", priority := some .low }

def rawC : RawAsset := { id := "c", type := "json", url := "u", priority := some .low }

/-- A descriptor with an unsupported kind (the recognized kinds are json,
text, image, script). -/
def rawV : RawAsset := { id := "v", type := "video", url := "u" }

/-- A descriptor depending on an id that is never registered. -/
def rawD : RawAsset := { id := "d", type := "json", url := "u", dependsOn := some ["z"] }

/-- The run used in the C5 counterexample: three resources (one medium,
two low), the medium one succeeding after 600 ms with two resources still
non-terminal. -/
def runC5 : State :=
  run (init defaultLimits) [Step.add rawA, Step.add rawB, Step.add rawC, Step.start,
    Step.tick 600, Step.fetchComplete 0 true]

theorem PMap.get_set_self {α : Type} (m : PMap α) (p : Priority) (v : α) :
    (m.set p v).get p = v := by
  cases p <;> rfl

theorem PMap.get_set_ne {α : Type} {m : PMap α} {p q : Priority} {v : α} (h : q ≠ p) :
    (m.set p v).get q = m.get q := by
  cases p <;> cases q <;> first | rfl | exact absurd rfl h

theorem mem_addSet {l : List String} {x i : String} :
    x ∈ addSet l i ↔ x ∈ l ∨ x = i := by
  unfold addSet
  split
  · rename_i h
    constructor
    · exact Or.inl
    · rintro (hx | rfl)
      · exact hx
      · exact h
  · simp

theorem addSet_of_not_mem {l : List String} {i : String} (h : i ∉ l) :
    addSet l i = l ++ [i] := by
  simp [addSet, h]

theorem mem_addSet_of_mem {l : List String} {x : String} (i : String) (h : x ∈ l) :
    x ∈ addSet l i :=
  mem_addSet.mpr (Or.inl h)

theorem mapSet_of_not_mem {l : List Asset} {a : Asset} (h : a.id ∉ l.map Asset.id) :
    mapSet l a = l ++ [a] := by
  induction l with
  | nil => rfl
  | cons b bs ih =>
    simp only [List.map_cons, List.mem_cons, not_or] at h
    simp only [mapSet]
    rw [if_neg (fun hb => h.1 hb.symm), ih h.2]
    rfl

/-- Decompose a task list around the task addressed by a valid position, and
compute `setTask` and `removeTask` on that decomposition. -/
theorem getTask?_decomp {l : List Task} {i : Nat} {t : Task} (h : getTask? l i = some t) :
    ∃ l₁ l₂, l = l₁ ++ t :: l₂ ∧ l₁.length = i ∧
      (∀ t', setTask l i t' = l₁ ++ t' :: l₂) ∧
      removeTask l i = l₁ ++ l₂ := by
  induction l generalizing i with
  | nil => simp [getTask?] at h
  | cons x xs ih =>
    cases i with
    | zero =>
      refine ⟨[], xs, ?_, rfl, fun t' => rfl, rfl⟩
      simp [getTask?] at h
      rw [h]
      rfl
    | succ n =>
      obtain ⟨l₁, l₂, heq, hlen, hset, hrem⟩ := ih (by simpa [getTask?] using h)
      refine ⟨x :: l₁, l₂, by rw [List.cons_append, heq], by simp [hlen], ?_, ?_⟩
      · intro t'
        simp [setTask, hset t']
      · simp [removeTask, hrem]

theorem getTask?_mem {l : List Task} {i : Nat} {t : Task} (h : getTask? l i = some t) :
    t ∈ l := by
  obtain ⟨l₁, l₂, heq, -⟩ := getTask?_decomp h
  rw [heq]
  exact List.mem_append_right _ (List.mem_cons_self _ _)

/-! ## Frame lemmas: which state fields each operation leaves unchanged -/

/-- The admission loop for one class touches only `queue`, `concurrent` and
`tasks`; in particular it emits no events. -/
theorem processClassLoop_frame (p : Priority) (f : Nat) (s : State) :
    (processClassLoop s p f).assets = s.assets ∧
    (processClassLoop s p f).loadedAssets = s.loadedAssets ∧
    (processClassLoop s p f).failedAssets = s.failedAssets ∧
    (processClassLoop s p f).stats = s.stats ∧
    (processClassLoop s p f).trace = s.trace ∧
    (processClassLoop s p f).etaSamples = s.etaSamples ∧
    (processClassLoop s p f).maxConcurrent = s.maxConcurrent ∧
    (processClassLoop s p f).paused = s.paused ∧
    (processClassLoop s p f).running = s.running ∧
    (processClassLoop s p f).now = s.now ∧
    (processClassLoop s p f).startTime = s.startTime := by
  induction f generalizing s with
  | zero => exact ⟨rfl, rfl, rfl, rfl, rfl, rfl, rfl, rfl, rfl, rfl, rfl⟩
  | succ n ih =>
    unfold processClassLoop
    split
    · split
      · exact ⟨rfl, rfl, rfl, rfl, rfl, rfl, rfl, rfl, rfl, rfl, rfl⟩
      · split
        · exact ih _
        · exact ⟨rfl, rfl, rfl, rfl, rfl, rfl, rfl, rfl, rfl, rfl, rfl⟩
    · exact ⟨rfl, rfl, rfl, rfl, rfl, rfl, rfl, rfl, rfl, rfl, rfl⟩

theorem processClass_frame (p : Priority) (s : State) :
    (processClass s p).assets = s.assets ∧
    (processClass s p).loadedAssets = s.loadedAssets ∧
    (processClass s p).failedAssets = s.failedAssets ∧
    (processClass s p).stats = s.stats ∧
    (processClass s p).trace = s.trace ∧
    (processClass s p).etaSamples = s.etaSamples ∧
    (processClass s p).maxConcurrent = s.maxConcurrent ∧
    (processClass s p).paused = s.paused ∧
    (processClass s p).running = s.running ∧
    (processClass s p).now = s.now ∧
    (processClass s p).startTime = s.startTime :=
  processClassLoop_frame p _ s

theorem processAll_frame (s : State) :
    (processAll s).assets = s.assets ∧
    (processAll s).loadedAssets = s.loadedAssets ∧
    (processAll s).failedAssets = s.failedAssets ∧
    (processAll s).stats = s.stats ∧
    (processAll s).trace = s.trace ∧
    (processAll s).etaSamples = s.etaSamples ∧
    (processAll s).maxConcurrent = s.maxConcurrent ∧
    (processAll s).paused = s.paused ∧
    (processAll s).running = s.running ∧
    (processAll s).now = s.now ∧
    (processAll s).startTime = s.startTime := by
  obtain ⟨a1, b1, c1, d1, e1, f1, g1, p1, r1, n1, t1⟩ := processClass_frame Priority.high s
  obtain ⟨a2, b2, c2, d2, e2, f2, g2, p2, r2, n2, t2⟩ :=
    processClass_frame Priority.medium (processClass s .high)
  obtain ⟨a3, b3, c3, d3, e3, f3, g3, p3, r3, n3, t3⟩ :=
    processClass_frame Priority.low (processClass (processClass s .high) .medium)
  unfold processAll
  exact ⟨a3.trans (a2.trans a1), b3.trans (b2.trans b1), c3.trans (c2.trans c1),
    d3.trans (d2.trans d1), e3.trans (e2.trans e1), f3.trans (f2.trans f1),
    g3.trans (g2.trans g1), p3.trans (p2.trans p1), r3.trans (r2.trans r1),
    n3.trans (n2.trans n1), t3.trans (t2.trans t1)⟩

theorem processQueue_eq (s : State) :
    processQueue s =
      if s.paused || !s.running then s
      else
        let s1 := processAll s
        if s1.stats.loaded + s1.stats.failed ≥ s1.stats.total then
          emit (.complete s1.loadedAssets s1.failedAssets (s1.now - s1.startTime))
            { s1 with running := false }
        else s1 :=
  rfl

/-- `_processQueue` touches only `queue`, `concurrent`, `tasks`, `running`
and the trace (the one possible emission being a single `complete` carrying
the then-current loaded and failed id lists). -/
theorem processQueue_frame (s : State) :
    (processQueue s).assets = s.assets ∧
    (processQueue s).loadedAssets = s.loadedAssets ∧
    (processQueue s).failedAssets = s.failedAssets ∧
    (processQueue s).stats = s.stats ∧
    (processQueue s).etaSamples = s.etaSamples ∧
    (processQueue s).maxConcurrent = s.maxConcurrent ∧
    (processQueue s).paused = s.paused ∧
    (processQueue s).now = s.now ∧
    (processQueue s).startTime = s.startTime ∧
    ((processQueue s).trace = s.trace ∨
      ∃ d, (processQueue s).trace =
        s.trace ++ [.complete (processQueue s).loadedAssets (processQueue s).failedAssets d]) := by
  obtain ⟨ha, hb, hc, hd, he, hf, hg, hp, hr, hn, ht⟩ := processAll_frame s
  rw [processQueue_eq]
  split
  · exact ⟨rfl, rfl, rfl, rfl, rfl, rfl, rfl, rfl, rfl, Or.inl rfl⟩
  · dsimp only
    split
    · exact ⟨ha, hb, hc, hd, hf, hg, hp, hn, ht,
        Or.inr ⟨(processAll s).now - (processAll s).startTime, by simp only [emit, he, hb, hc]⟩⟩
    · exact ⟨ha, hb, hc, hd, hf, hg, hp, hn, ht, Or.inl he⟩

theorem invAll_init (limits : PMap Nat) : InvAll (init limits) := by
  constructor <;> intro p <;> cases p <;> simp [init, PMap.get]

theorem invD_init (limits : PMap Nat) : InvD (init limits) := by
  constructor <;> simp [init, allIds, queuedIds, activeIds]

/-- An id held by an in-flight task is in neither terminal set (under the
distinct-ids invariant). -/
theorem active_not_terminal {s : State} (hD : InvD s) {t : Task} (ht : t ∈ s.tasks)
    (hact : t.isSettled = false) :
    t.asset.id ∉ s.loadedAssets ∧ t.asset.id ∉ s.failedAssets := by
  have hmemA : t.asset.id ∈ activeIds s := by
    simp only [activeIds, Multiset.mem_coe, List.mem_map]
    exact ⟨t, List.mem_filter.mpr ⟨ht, by simp [hact]⟩, rfl⟩
  have hnd : (allIds s).Nodup := by
    rw [hD.partition]
    exact Multiset.coe_nodup.mpr hD.ids_nodup
  have h1 := Multiset.nodup_add.mp hnd
  have h2 := Multiset.nodup_add.mp h1.1
  constructor
  · exact Multiset.disjoint_left.mp h2.2.2 (Multiset.mem_add.mpr (Or.inr hmemA))
  · exact Multiset.disjoint_left.mp h1.2.2
      (Multiset.mem_add.mpr (Or.inl (Multiset.mem_add.mpr (Or.inr hmemA))))

theorem admit_invAll {s : State} {p : Priority} {a : Asset} {rest : List Asset}
    (hA : InvAll s) (hq : s.queue.get p = a :: rest) (helig : eligible s a = true)
    (hlt : s.concurrent.get p < s.maxConcurrent.get p) :
    InvAll (admitState s p a rest) := by
  have hpa : a.priority = p := hA.queue_prio p a (by rw [hq]; exact List.mem_cons_self _ _)
  constructor
  · -- conc_eq
    intro q
    by_cases hqp : q = p
    · subst hqp
      simp only [admitState, PMap.get_set_self, List.filter_append]
      rw [hA.conc_eq q]
      simp [hpa]
    · simp only [admitState, PMap.get_set_ne hqp, List.filter_append]
      rw [hA.conc_eq q]
      have : (Asset.priority a == q) = false := by
        simp only [beq_eq_false_iff_ne, ne_eq, hpa]
        exact fun h => hqp h.symm
      simp [this]
  · -- conc_le
    intro q
    by_cases hqp : q = p
    · subst hqp
      simp only [admitState, PMap.get_set_self]
      exact hlt
    · simp only [admitState, PMap.get_set_ne hqp]
      exact hA.conc_le q
  · -- queue_prio
    intro q b hb
    by_cases hqp : q = p
    · subst hqp
      rw [admitState] at hb
      simp only [PMap.get_set_self] at hb
      exact hA.queue_prio q b (by rw [hq]; exact List.mem_cons_of_mem _ hb)
    · rw [admitState] at hb
      simp only [PMap.get_set_ne hqp] at hb
      exact hA.queue_prio q b hb
  · -- deps_resolved
    intro t ht d hd
    rw [admitState] at ht
    simp only [List.mem_append, List.mem_singleton] at ht
    rcases ht with ht | rfl
    · exact hA.deps_resolved t ht d hd
    · have := List.all_eq_true.mp helig d hd
      simpa using this
  · -- attempt_le
    intro t ht
    rw [admitState] at ht
    simp only [List.mem_append, List.mem_singleton] at ht
    rcases ht with ht | rfl
    · exact hA.attempt_le t ht
    · exact ⟨le_refl 1, Nat.le_add_left 1 _⟩
  · -- delay_ok
    intro t ht d hph
    rw [admitState] at ht
    simp only [List.mem_append, List.mem_singleton] at ht
    rcases ht with ht | rfl
    · exact hA.delay_ok t ht d hph
    · simp at hph

theorem admit_invD {s : State} {p : Priority} {a : Asset} {rest : List Asset}
    (hD : InvD s) (hq : s.queue.get p = a :: rest) :
    InvD (admitState s p a rest) := by
  have hQ : queuedIds s = queuedIds (admitState s p a rest) + {a.id} := by
    cases p <;>
      · simp only [PMap.get] at hq
        simp only [queuedIds, admitState, PMap.set, hq, List.map_cons, ← Multiset.cons_coe]
        rw [← Multiset.singleton_add]
        abel
  have hActive : activeIds (admitState s p a rest) = activeIds s + {a.id} := by
    simp only [activeIds, admitState, List.filter_append, List.map_append, ← Multiset.coe_add]
    simp [Task.isSettled]
  have hAll : allIds (admitState s p a rest) = allIds s := by
    have hL : (admitState s p a rest).loadedAssets = s.loadedAssets := rfl
    have hF : (admitState s p a rest).failedAssets = s.failedAssets := rfl
    rw [allIds, allIds, hActive, hL, hF, hQ]
    abel
  constructor
  · exact hD.ids_nodup
  · rw [hAll]
    exact hD.partition
  · intro t ht hset
    rw [admitState] at ht
    simp only [List.mem_append, List.mem_singleton] at ht
    rcases ht with ht | rfl
    · exact hD.settled_terminal t ht hset
    · simp [Task.isSettled] at hset
  · exact hD.stats_loaded
  · exact hD.stats_failed
  · exact hD.stats_total
  · exact hD.load_count
  · exact hD.error_count

theorem requeue_invAll {s : State} {p : Priority} {a : Asset} {rest : List Asset}
    (hA : InvAll s) (hq : s.queue.get p = a :: rest) :
    InvAll { s with queue := s.queue.set p (rest ++ [a]) } := by
  constructor
  · exact hA.conc_eq
  · exact hA.conc_le
  · intro q b hb
    by_cases hqp : q = p
    · subst hqp
      simp only [PMap.get_set_self, List.mem_append, List.mem_singleton] at hb
      rcases hb with hb | rfl
      · exact hA.queue_prio q b (by rw [hq]; exact List.mem_cons_of_mem _ hb)
      · exact hA.queue_prio q b (by rw [hq]; exact List.mem_cons_self _ _)
    · simp only [PMap.get_set_ne hqp] at hb
      exact hA.queue_prio q b hb
  · exact hA.deps_resolved
  · exact hA.attempt_le
  · exact hA.delay_ok

theorem requeue_invD {s : State} {p : Priority} {a : Asset} {rest : List Asset}
    (hD : InvD s) (hq : s.queue.get p = a :: rest) :
    InvD { s with queue := s.queue.set p (rest ++ [a]) } := by
  have hQ : queuedIds { s with queue := s.queue.set p (rest ++ [a]) } = queuedIds s := by
    cases p <;>
      · simp only [PMap.get] at hq
        simp only [queuedIds, PMap.set, hq, List.map_cons, List.map_append, List.map_nil,
          ← Multiset.coe_add, ← Multiset.cons_coe, Multiset.coe_singleton, Multiset.coe_nil]
        simp only [← Multiset.singleton_add]
        abel
  have hAll : allIds { s with queue := s.queue.set p (rest ++ [a]) } = allIds s := by
    rw [allIds, allIds, hQ]
    rfl
  constructor
  · exact hD.ids_nodup
  · rw [hAll]; exact hD.partition
  · exact hD.settled_terminal
  · exact hD.stats_loaded
  · exact hD.stats_failed
  · exact hD.stats_total
  · exact hD.load_count
  · exact hD.error_count

/-- The admission loop preserves the unconditional invariants. -/
theorem processClassLoop_invAll {s : State} (p : Priority) (f : Nat) (hA : InvAll s) :
    InvAll (processClassLoop s p f) := by
  induction f generalizing s with
  | zero => exact hA
  | succ n ih =>
    unfold processClassLoop
    split
    · split
      · exact hA
      · rename_i hlt hscrut a rest hq
        split
        · rename_i helig
          exact ih (admit_invAll hA hq helig hlt)
        · exact requeue_invAll hA hq
    · exact hA

/-- The admission loop preserves the distinct-ids invariants. -/
theorem processClassLoop_invD {s : State} (p : Priority) (f : Nat) (hD : InvD s) :
    InvD (processClassLoop s p f) := by
  induction f generalizing s with
  | zero => exact hD
  | succ n ih =>
    unfold processClassLoop
    split
    · split
      · exact hD
      · rename_i hlt hscrut a rest hq
        split
        · rename_i helig
          exact ih (admit_invD hD hq)
        · exact requeue_invD hD hq
    · exact hD

theorem processAll_invAll {s : State} (hA : InvAll s) : InvAll (processAll s) :=
  processClassLoop_invAll .low _ (processClassLoop_invAll .medium _
    (processClassLoop_invAll .high _ hA))

theorem processAll_invD {s : State} (hD : InvD s) : InvD (processAll s) :=
  processClassLoop_invD .low _ (processClassLoop_invD .medium _
    (processClassLoop_invD .high _ hD))

/-- `InvAll` only looks at `concurrent`, `maxConcurrent`, `queue`, `tasks`
and the terminal sets, so it transfers across any state change leaving those
untouched. -/
theorem invAll_congr (s : State) {s' : State}
    (hc : s'.concurrent = s.concurrent) (hm : s'.maxConcurrent = s.maxConcurrent)
    (hq : s'.queue = s.queue) (ht : s'.tasks = s.tasks)
    (hl : s'.loadedAssets = s.loadedAssets) (hf : s'.failedAssets = s.failedAssets)
    (hA : InvAll s) : InvAll s' := by
  constructor
  · intro p
    rw [hc, ht]
    exact hA.conc_eq p
  · intro p
    rw [hc, hm]
    exact hA.conc_le p
  · intro p a ha
    rw [hq] at ha
    exact hA.queue_prio p a ha
  · intro t htt d hd
    rw [ht] at htt
    rw [hl, hf]
    exact hA.deps_resolved t htt d hd
  · intro t htt
    rw [ht] at htt
    exact hA.attempt_le t htt
  · intro t htt
    rw [ht] at htt
    exact hA.delay_ok t htt

/-- `InvD` transfers across any state change that keeps the resource
bookkeeping and appends only events that are neither `load` nor `error`. -/
theorem invD_congr (s : State) {s' : State}
    (ha : s'.assets = s.assets) (hq : s'.queue = s.queue) (ht : s'.tasks = s.tasks)
    (hl : s'.loadedAssets = s.loadedAssets) (hf : s'.failedAssets = s.failedAssets)
    (hst : s'.stats = s.stats)
    (l : List Event) (htr : s'.trace = s.trace ++ l)
    (hle : ∀ i, l.countP (isLoadOf i) = 0) (hee : ∀ i, l.countP (isErrorOf i) = 0)
    (hD : InvD s) : InvD s' := by
  have hAll : allIds s' = allIds s := by
    rw [allIds, allIds, queuedIds, queuedIds, activeIds, activeIds, hq, ht, hl, hf]
  constructor
  · rw [ha]
    exact hD.ids_nodup
  · rw [hAll, ha]
    exact hD.partition
  · intro t htt hset
    rw [ht] at htt
    rw [hl, hf]
    exact hD.settled_terminal t htt hset
  · rw [hst, hl]
    exact hD.stats_loaded
  · rw [hst, hf]
    exact hD.stats_failed
  · rw [hst, ha]
    exact hD.stats_total
  · intro i
    rw [htr, List.countP_append, hle i, hl]
    simpa using hD.load_count i
  · intro i
    rw [htr, List.countP_append, hee i, hf]
    simpa using hD.error_count i

theorem processQueue_invAll {s : State} (hA : InvAll s) : InvAll (processQueue s) := by
  rw [processQueue_eq]
  split
  · exact hA
  · dsimp only
    split
    · exact invAll_congr (processAll s) rfl rfl rfl rfl rfl rfl (processAll_invAll hA)
    · exact processAll_invAll hA

theorem processQueue_invD {s : State} (hD : InvD s) : InvD (processQueue s) := by
  rw [processQueue_eq]
  split
  · exact hD
  · dsimp only
    split
    · exact invD_congr (processAll s) rfl rfl rfl rfl rfl rfl _ rfl (fun i => rfl)
        (fun i => rfl) (processAll_invD hD)
    · exact processAll_invD hD

theorem filter_middle_length {P : Task → Bool} (l₁ l₂ : List Task) {x y : Task}
    (hxy : P x = P y) :
    ((l₁ ++ x :: l₂).filter P).length = ((l₁ ++ y :: l₂).filter P).length := by
  simp only [List.filter_append, List.filter_cons, hxy]
  cases h : P y <;> simp [h]

theorem mem_of_mem_setTask {l : List Task} {i : Nat} {t t' x : Task}
    (hget : getTask? l i = some t) (hx : x ∈ setTask l i t') : x ∈ l ∨ x = t' := by
  obtain ⟨l₁, l₂, heq, hlen, hset, hrem⟩ := getTask?_decomp hget
  rw [hset t'] at hx
  rcases List.mem_append.mp hx with h1 | h2
  · exact Or.inl (by rw [heq]; exact List.mem_append_left _ h1)
  · rcases List.mem_cons.mp h2 with rfl | h3
    · exact Or.inr rfl
    · exact Or.inl (by rw [heq]; exact List.mem_append_right _ (List.mem_cons_of_mem _ h3))

/-- The success branch of `_attemptLoad` preserves the unconditional
invariants (the settled task keeps its asset, so per-class counts are
unchanged; the terminal sets only grow). -/
theorem fetchSuccess_invAll {s : State} {i : Nat} {t : Task}
    (hA : InvAll s) (hget : getTask? s.tasks i = some t) :
    InvAll (fetchSuccess s i t) := by
  obtain ⟨l₁, l₂, heq, hlen, hset, hrem⟩ := getTask?_decomp hget
  have htm : t ∈ s.tasks := getTask?_mem hget
  have htasks : (fetchSuccess s i t).tasks = l₁ ++ { t with phase := Phase.settled } :: l₂ := by
    simp [fetchSuccess, reportProgress, emit, hset]
  have hconc : (fetchSuccess s i t).concurrent = s.concurrent := rfl
  have hmax : (fetchSuccess s i t).maxConcurrent = s.maxConcurrent := rfl
  have hqueue : (fetchSuccess s i t).queue = s.queue := rfl
  have hload : (fetchSuccess s i t).loadedAssets = addSet s.loadedAssets t.asset.id := rfl
  have hfail : (fetchSuccess s i t).failedAssets = s.failedAssets := rfl
  have hmem : ∀ x, x ∈ (fetchSuccess s i t).tasks →
      x ∈ s.tasks ∨ x = { t with phase := Phase.settled } := by
    intro x hx
    rw [htasks, ← hset] at hx
    exact mem_of_mem_setTask hget hx
  constructor
  · intro p
    rw [hconc, htasks, hA.conc_eq p, heq]
    exact filter_middle_length l₁ l₂ rfl
  · intro p
    rw [hconc, hmax]
    exact hA.conc_le p
  · intro p a ha
    rw [hqueue] at ha
    exact hA.queue_prio p a ha
  · intro x hx d hd
    rw [hload, hfail]
    rcases hmem x hx with hx' | rfl
    · rcases hA.deps_resolved x hx' d hd with h | h
      · exact Or.inl (mem_addSet_of_mem _ h)
      · exact Or.inr h
    · rcases hA.deps_resolved t htm d hd with h | h
      · exact Or.inl (mem_addSet_of_mem _ h)
      · exact Or.inr h
  · intro x hx
    rcases hmem x hx with hx' | rfl
    · exact hA.attempt_le x hx'
    · exact hA.attempt_le t htm
  · intro x hx d hph
    rcases hmem x hx with hx' | rfl
    · exact hA.delay_ok x hx' d hph
    · simp at hph

/-- The success branch of `_attemptLoad` preserves the distinct-ids
invariants: the task's id moves from the in-flight multiset into the loaded
set, exactly one `load` event for it is appended, and the stats counters
track the set sizes. -/
theorem fetchSuccess_invD {s : State} {i : Nat} {t : Task}
    (hD : InvD s) (hget : getTask? s.tasks i = some t)
    (hph : t.phase = .awaitFetch) : InvD (fetchSuccess s i t) := by
  obtain ⟨l₁, l₂, heq, hlen, hset, hrem⟩ := getTask?_decomp hget
  have htm : t ∈ s.tasks := getTask?_mem hget
  have hact : t.isSettled = false := by rw [Task.isSettled, hph]
  obtain ⟨hnl, hnf⟩ := active_not_terminal hD htm hact
  have htasks : (fetchSuccess s i t).tasks = l₁ ++ { t with phase := Phase.settled } :: l₂ := by
    simp [fetchSuccess, reportProgress, emit, hset]
  have hload : (fetchSuccess s i t).loadedAssets = s.loadedAssets ++ [t.asset.id] := by
    rw [show (fetchSuccess s i t).loadedAssets = addSet s.loadedAssets t.asset.id from rfl,
      addSet_of_not_mem hnl]
  have hfail : (fetchSuccess s i t).failedAssets = s.failedAssets := rfl
  have hassets : (fetchSuccess s i t).assets = s.assets := rfl
  have hcntL : ∀ j, (fetchSuccess s i t).trace.countP (isLoadOf j) =
      s.trace.countP (isLoadOf j) + (if t.asset.id = j then 1 else 0) := by
    intro j
    simp only [fetchSuccess, reportProgress, emit]
    rw [List.append_assoc, List.countP_append]
    congr 1
    by_cases h : t.asset.id = j <;> simp [List.countP_cons, isLoadOf, h]
  have hcntE : ∀ j, (fetchSuccess s i t).trace.countP (isErrorOf j) =
      s.trace.countP (isErrorOf j) := by
    intro j
    simp only [fetchSuccess, reportProgress, emit]
    rw [List.append_assoc, List.countP_append]
    simp [List.countP_cons, isErrorOf]
  have hQ : queuedIds (fetchSuccess s i t) = queuedIds s := rfl
  have hAs : activeIds s =
      ↑((l₁.filter fun x => !x.isSettled).map fun x => x.asset.id) +
        (t.asset.id ::ₘ ↑((l₂.filter fun x => !x.isSettled).map fun x => x.asset.id)) := by
    simp only [activeIds, heq, List.filter_append, List.filter_cons, hact, Bool.not_false,
      if_pos, List.map_append, List.map_cons, ← Multiset.coe_add, ← Multiset.cons_coe]
  have hAs' : activeIds (fetchSuccess s i t) =
      ↑((l₁.filter fun x => !x.isSettled).map fun x => x.asset.id) +
        ↑((l₂.filter fun x => !x.isSettled).map fun x => x.asset.id) := by
    have hsett : (!Task.isSettled { t with phase := Phase.settled }) = false := rfl
    simp only [activeIds, htasks, List.filter_append, List.filter_cons, hsett,
      Bool.false_eq_true, if_false, List.map_append, ← Multiset.coe_add]
  have hAll : allIds (fetchSuccess s i t) = allIds s := by
    rw [allIds, allIds, hQ, hAs', hAs, hload, hfail, ← Multiset.coe_add]
    rw [Multiset.coe_singleton, ← Multiset.singleton_add]
    abel
  constructor
  · rw [hassets]
    exact hD.ids_nodup
  · rw [hAll, hassets]
    exact hD.partition
  · intro x hx hxset
    rw [hload, hfail]
    have hmem : x ∈ s.tasks ∨ x = { t with phase := Phase.settled } := by
      rw [htasks, ← hset] at hx
      exact mem_of_mem_setTask hget hx
    rcases hmem with hx' | rfl
    · rcases hD.settled_terminal x hx' hxset with h | h
      · exact Or.inl (List.mem_append_left _ h)
      · exact Or.inr h
    · exact Or.inl (List.mem_append_right _ (List.mem_singleton_self _))
  · rw [hload]
    simp only [List.length_append, List.length_singleton]
    rw [show (fetchSuccess s i t).stats.loaded = s.stats.loaded + 1 from rfl, hD.stats_loaded]
  · rw [hfail]
    rw [show (fetchSuccess s i t).stats.failed = s.stats.failed from rfl]
    exact hD.stats_failed
  · rw [hassets]
    rw [show (fetchSuccess s i t).stats.total = s.stats.total from rfl]
    exact hD.stats_total
  · intro j
    rw [hcntL j, hD.load_count j, hload]
    by_cases h : t.asset.id = j
    · subst h
      rw [if_neg hnl]
      simp
    · have hj : (j ∈ s.loadedAssets ++ [t.asset.id]) ↔ j ∈ s.loadedAssets := by
        simp only [List.mem_append, List.mem_singleton, or_iff_left_iff_imp]
        intro hj'
        exact absurd hj'.symm h
      rw [if_congr hj rfl rfl, if_neg h, Nat.add_zero]
  · intro j
    rw [hcntE j, hfail, hD.error_count j]

/-- The final-failure branch of `_attemptLoad` preserves the unconditional
invariants. -/
theorem fetchFailFinal_invAll {s : State} {i : Nat} {t : Task}
    (hA : InvAll s) (hget : getTask? s.tasks i = some t) :
    InvAll (fetchFailFinal s i t) := by
  obtain ⟨l₁, l₂, heq, hlen, hset, hrem⟩ := getTask?_decomp hget
  have htm : t ∈ s.tasks := getTask?_mem hget
  have htasks : (fetchFailFinal s i t).tasks = l₁ ++ { t with phase := Phase.settled } :: l₂ := by
    simp [fetchFailFinal, reportProgress, emit, hset]
  have hconc : (fetchFailFinal s i t).concurrent = s.concurrent := rfl
  have hmax : (fetchFailFinal s i t).maxConcurrent = s.maxConcurrent := rfl
  have hqueue : (fetchFailFinal s i t).queue = s.queue := rfl
  have hload : (fetchFailFinal s i t).loadedAssets = s.loadedAssets := rfl
  have hfail : (fetchFailFinal s i t).failedAssets = addSet s.failedAssets t.asset.id := rfl
  have hmem : ∀ x, x ∈ (fetchFailFinal s i t).tasks →
      x ∈ s.tasks ∨ x = { t with phase := Phase.settled } := by
    intro x hx
    rw [htasks, ← hset] at hx
    exact mem_of_mem_setTask hget hx
  constructor
  · intro p
    rw [hconc, htasks, hA.conc_eq p, heq]
    exact filter_middle_length l₁ l₂ rfl
  · intro p
    rw [hconc, hmax]
    exact hA.conc_le p
  · intro p a ha
    rw [hqueue] at ha
    exact hA.queue_prio p a ha
  · intro x hx d hd
    rw [hload, hfail]
    rcases hmem x hx with hx' | rfl
    · rcases hA.deps_resolved x hx' d hd with h | h
      · exact Or.inl h
      · exact Or.inr (mem_addSet_of_mem _ h)
    · rcases hA.deps_resolved t htm d hd with h | h
      · exact Or.inl h
      · exact Or.inr (mem_addSet_of_mem _ h)
  · intro x hx
    rcases hmem x hx with hx' | rfl
    · exact hA.attempt_le x hx'
    · exact hA.attempt_le t htm
  · intro x hx d hph
    rcases hmem x hx with hx' | rfl
    · exact hA.delay_ok x hx' d hph
    · simp at hph

/-- The final-failure branch of `_attemptLoad` preserves the distinct-ids
invariants: the task's id moves into the failed set and exactly one `error`
event for it is appended. -/
theorem fetchFailFinal_invD {s : State} {i : Nat} {t : Task}
    (hD : InvD s) (hget : getTask? s.tasks i = some t)
    (hph : t.phase = .awaitFetch) : InvD (fetchFailFinal s i t) := by
  obtain ⟨l₁, l₂, heq, hlen, hset, hrem⟩ := getTask?_decomp hget
  have htm : t ∈ s.tasks := getTask?_mem hget
  have hact : t.isSettled = false := by rw [Task.isSettled, hph]
  obtain ⟨hnl, hnf⟩ := active_not_terminal hD htm hact
  have htasks : (fetchFailFinal s i t).tasks = l₁ ++ { t with phase := Phase.settled } :: l₂ := by
    simp [fetchFailFinal, reportProgress, emit, hset]
  have hfail : (fetchFailFinal s i t).failedAssets = s.failedAssets ++ [t.asset.id] := by
    rw [show (fetchFailFinal s i t).failedAssets = addSet s.failedAssets t.asset.id from rfl,
      addSet_of_not_mem hnf]
  have hload : (fetchFailFinal s i t).loadedAssets = s.loadedAssets := rfl
  have hassets : (fetchFailFinal s i t).assets = s.assets := rfl
  have hcntE : ∀ j, (fetchFailFinal s i t).trace.countP (isErrorOf j) =
      s.trace.countP (isErrorOf j) + (if t.asset.id = j then 1 else 0) := by
    intro j
    simp only [fetchFailFinal, reportProgress, emit]
    rw [List.append_assoc, List.countP_append]
    congr 1
    by_cases h : t.asset.id = j <;> simp [List.countP_cons, isErrorOf, h]
  have hcntL : ∀ j, (fetchFailFinal s i t).trace.countP (isLoadOf j) =
      s.trace.countP (isLoadOf j) := by
    intro j
    simp only [fetchFailFinal, reportProgress, emit]
    rw [List.append_assoc, List.countP_append]
    simp [List.countP_cons, isLoadOf]
  have hQ : queuedIds (fetchFailFinal s i t) = queuedIds s := rfl
  have hAs : activeIds s =
      ↑((l₁.filter fun x => !x.isSettled).map fun x => x.asset.id) +
        (t.asset.id ::ₘ ↑((l₂.filter fun x => !x.isSettled).map fun x => x.asset.id)) := by
    simp only [activeIds, heq, List.filter_append, List.filter_cons, hact, Bool.not_false,
      if_pos, List.map_append, List.map_cons, ← Multiset.coe_add, ← Multiset.cons_coe]
  have hAs' : activeIds (fetchFailFinal s i t) =
      ↑((l₁.filter fun x => !x.isSettled).map fun x => x.asset.id) +
        ↑((l₂.filter fun x => !x.isSettled).map fun x => x.asset.id) := by
    have hsett : (!Task.isSettled { t with phase := Phase.settled }) = false := rfl
    simp only [activeIds, htasks, List.filter_append, List.filter_cons, hsett,
      Bool.false_eq_true, if_false, List.map_append, ← Multiset.coe_add]
  have hAll : allIds (fetchFailFinal s i t) = allIds s := by
    rw [allIds, allIds, hQ, hAs', hAs, hload, hfail, ← Multiset.coe_add]
    rw [Multiset.coe_singleton, ← Multiset.singleton_add]
    abel
  constructor
  · rw [hassets]
    exact hD.ids_nodup
  · rw [hAll, hassets]
    exact hD.partition
  · intro x hx hxset
    rw [hload, hfail]
    have hmem : x ∈ s.tasks ∨ x = { t with phase := Phase.settled } := by
      rw [htasks, ← hset] at hx
      exact mem_of_mem_setTask hget hx
    rcases hmem with hx' | rfl
    · rcases hD.settled_terminal x hx' hxset with h | h
      · exact Or.inl h
      · exact Or.inr (List.mem_append_left _ h)
    · exact Or.inr (List.mem_append_right _ (List.mem_singleton_self _))
  · rw [hload]
    rw [show (fetchFailFinal s i t).stats.loaded = s.stats.loaded from rfl]
    exact hD.stats_loaded
  · rw [hfail]
    simp only [List.length_append, List.length_singleton]
    rw [show (fetchFailFinal s i t).stats.failed = s.stats.failed + 1 from rfl, hD.stats_failed]
  · rw [hassets]
    rw [show (fetchFailFinal s i t).stats.total = s.stats.total from rfl]
    exact hD.stats_total
  · intro j
    rw [hcntL j, hload, hD.load_count j]
  · intro j
    rw [hcntE j, hD.error_count j, hfail]
    by_cases h : t.asset.id = j
    · subst h
      rw [if_neg hnf]
      simp
    · have hj : (j ∈ s.failedAssets ++ [t.asset.id]) ↔ j ∈ s.failedAssets := by
        simp only [List.mem_append, List.mem_singleton, or_iff_left_iff_imp]
        intro hj'
        exact absurd hj'.symm h
      rw [if_congr hj rfl rfl, if_neg h, Nat.add_zero]

/-- The retry branch of `_attemptLoad` preserves the unconditional
invariants; the recorded backoff delay matches the source's
`500 * 2^(attempt-1)` formula. -/
theorem fetchFailRetry_invAll {s : State} {i : Nat} {t : Task}
    (hA : InvAll s) (hget : getTask? s.tasks i = some t)
    (hle : t.attempt ≤ t.asset.retries) :
    InvAll (fetchFailRetry s i t) := by
  obtain ⟨l₁, l₂, heq, hlen, hset, hrem⟩ := getTask?_decomp hget
  have htm : t ∈ s.tasks := getTask?_mem hget
  have htasks : (fetchFailRetry s i t).tasks =
      l₁ ++ { t with phase := Phase.awaitDelay (500 * 2 ^ (t.attempt - 1)) } :: l₂ := by
    simp [fetchFailRetry, emit, hset]
  have hmem : ∀ x, x ∈ (fetchFailRetry s i t).tasks →
      x ∈ s.tasks ∨ x = { t with phase := Phase.awaitDelay (500 * 2 ^ (t.attempt - 1)) } := by
    intro x hx
    rw [htasks, ← hset] at hx
    exact mem_of_mem_setTask hget hx
  constructor
  · intro p
    rw [show (fetchFailRetry s i t).concurrent = s.concurrent from rfl, htasks,
      hA.conc_eq p, heq]
    exact filter_middle_length l₁ l₂ rfl
  · intro p
    exact hA.conc_le p
  · intro p a ha
    exact hA.queue_prio p a ha
  · intro x hx d hd
    rcases hmem x hx with hx' | rfl
    · exact hA.deps_resolved x hx' d hd
    · exact hA.deps_resolved t htm d hd
  · intro x hx
    rcases hmem x hx with hx' | rfl
    · exact hA.attempt_le x hx'
    · exact hA.attempt_le t htm
  · intro x hx d hph
    rcases hmem x hx with hx' | rfl
    · exact hA.delay_ok x hx' d hph
    · refine ⟨hle, ?_⟩
      injection hph.symm with h
      try exact h
      try exact h.symm

/-- The retry branch of `_attemptLoad` preserves the distinct-ids
invariants (it only emits a `retry` event and re-suspends the task). -/
theorem fetchFailRetry_invD {s : State} {i : Nat} {t : Task}
    (hD : InvD s) (hget : getTask? s.tasks i = some t)
    (hph : t.phase = .awaitFetch) : InvD (fetchFailRetry s i t) := by
  obtain ⟨l₁, l₂, heq, hlen, hset, hrem⟩ := getTask?_decomp hget
  have htm : t ∈ s.tasks := getTask?_mem hget
  have hact : t.isSettled = false := by rw [Task.isSettled, hph]
  have htasks : (fetchFailRetry s i t).tasks =
      l₁ ++ { t with phase := Phase.awaitDelay (500 * 2 ^ (t.attempt - 1)) } :: l₂ := by
    simp [fetchFailRetry, emit, hset]
  have hAs : activeIds (fetchFailRetry s i t) = activeIds s := by
    have hsett :
        (!Task.isSettled { t with phase := Phase.awaitDelay (500 * 2 ^ (t.attempt - 1)) }) =
          true := rfl
    simp only [activeIds, htasks, heq, List.filter_append, List.filter_cons, hsett, hact,
      Bool.not_false, if_pos, List.map_append, List.map_cons]
  have hAll : allIds (fetchFailRetry s i t) = allIds s := by
    rw [allIds, allIds, hAs]
    rfl
  have hcnt : ∀ P : Event → Bool, P (.retry t.asset t.attempt) = false →
      (fetchFailRetry s i t).trace.countP P = s.trace.countP P := by
    intro P hP
    rw [show (fetchFailRetry s i t).trace = s.trace ++ [.retry t.asset t.attempt] from rfl,
      List.countP_append]
    simp [List.countP_cons, hP]
  constructor
  · exact hD.ids_nodup
  · rw [hAll]
    exact hD.partition
  · intro x hx hxset
    have hmem : x ∈ s.tasks ∨
        x = { t with phase := Phase.awaitDelay (500 * 2 ^ (t.attempt - 1)) } := by
      rw [htasks, ← hset] at hx
      exact mem_of_mem_setTask hget hx
    rcases hmem with hx' | rfl
    · exact hD.settled_terminal x hx' hxset
    · simp [Task.isSettled] at hxset
  · exact hD.stats_loaded
  · exact hD.stats_failed
  · exact hD.stats_total
  · intro j
    rw [hcnt (isLoadOf j) rfl]
    exact hD.load_count j
  · intro j
    rw [hcnt (isErrorOf j) rfl]
    exact hD.error_count j

theorem delayDone_invAll {s : State} {i : Nat} {t : Task} {d0 : Nat}
    (hA : InvAll s) (hget : getTask? s.tasks i = some t)
    (hph : t.phase = .awaitDelay d0) : InvAll (delayDoneState s i t) := by
  obtain ⟨l₁, l₂, heq, hlen, hset, hrem⟩ := getTask?_decomp hget
  have htm : t ∈ s.tasks := getTask?_mem hget
  have hretry : t.attempt ≤ t.asset.retries := (hA.delay_ok t htm d0 hph).1
  have htasks : (delayDoneState s i t).tasks =
      l₁ ++ { t with attempt := t.attempt + 1, phase := Phase.awaitFetch } :: l₂ := by
    simp [delayDoneState, hset]
  have hmem : ∀ x, x ∈ (delayDoneState s i t).tasks →
      x ∈ s.tasks ∨ x = { t with attempt := t.attempt + 1, phase := Phase.awaitFetch } := by
    intro x hx
    rw [delayDoneState] at hx
    exact mem_of_mem_setTask hget hx
  constructor
  · intro p
    rw [show (delayDoneState s i t).concurrent = s.concurrent from rfl, htasks,
      hA.conc_eq p, heq]
    exact filter_middle_length l₁ l₂ rfl
  · intro p
    exact hA.conc_le p
  · intro p a ha
    exact hA.queue_prio p a ha
  · intro x hx dd hd
    rcases hmem x hx with hx' | rfl
    · exact hA.deps_resolved x hx' dd hd
    · exact hA.deps_resolved t htm dd hd
  · intro x hx
    rcases hmem x hx with hx' | rfl
    · exact hA.attempt_le x hx'
    · exact ⟨Nat.le_add_left 1 _, Nat.succ_le_succ hretry⟩
  · intro x hx dd hphx
    rcases hmem x hx with hx' | rfl
    · exact hA.delay_ok x hx' dd hphx
    · simp at hphx

theorem delayDone_invD {s : State} {i : Nat} {t : Task} {d0 : Nat}
    (hD : InvD s) (hget : getTask? s.tasks i = some t)
    (hph : t.phase = .awaitDelay d0) : InvD (delayDoneState s i t) := by
  obtain ⟨l₁, l₂, heq, hlen, hset, hrem⟩ := getTask?_decomp hget
  have hact : t.isSettled = false := by rw [Task.isSettled, hph]
  have htasks : (delayDoneState s i t).tasks =
      l₁ ++ { t with attempt := t.attempt + 1, phase := Phase.awaitFetch } :: l₂ := by
    simp [delayDoneState, hset]
  have hAs : activeIds (delayDoneState s i t) = activeIds s := by
    have hsett :
        (!Task.isSettled { t with attempt := t.attempt + 1, phase := Phase.awaitFetch }) =
          true := rfl
    simp only [activeIds, htasks, heq, List.filter_append, List.filter_cons, hsett, hact,
      Bool.not_false, if_pos, List.map_append, List.map_cons]
  have hAll : allIds (delayDoneState s i t) = allIds s := by
    rw [allIds, allIds, hAs]
    rfl
  constructor
  · exact hD.ids_nodup
  · rw [hAll]
    exact hD.partition
  · intro x hx hxset
    have hmem : x ∈ s.tasks ∨
        x = { t with attempt := t.attempt + 1, phase := Phase.awaitFetch } := by
      rw [delayDoneState] at hx
      exact mem_of_mem_setTask hget hx
    rcases hmem with hx' | rfl
    · exact hD.settled_terminal x hx' hxset
    · simp [Task.isSettled] at hxset
  · exact hD.stats_loaded
  · exact hD.stats_failed
  · exact hD.stats_total
  · exact hD.load_count
  · exact hD.error_count

theorem finalize_invAll {s : State} {i : Nat} {t : Task}
    (hA : InvAll s) (hget : getTask? s.tasks i = some t) :
    InvAll (finalizeState s i t) := by
  obtain ⟨l₁, l₂, heq, hlen, hset, hrem⟩ := getTask?_decomp hget
  have htasks : (finalizeState s i t).tasks = l₁ ++ l₂ := by
    simp [finalizeState, hrem]
  have hmem : ∀ x, x ∈ (finalizeState s i t).tasks → x ∈ s.tasks := by
    intro x hx
    rw [htasks] at hx
    rw [heq]
    rcases List.mem_append.mp hx with h | h
    · exact List.mem_append_left _ h
    · exact List.mem_append_right _ (List.mem_cons_of_mem _ h)
  constructor
  · intro q
    by_cases hqp : q = t.asset.priority
    · subst hqp
      rw [show (finalizeState s i t).concurrent =
          s.concurrent.set t.asset.priority (s.concurrent.get t.asset.priority - 1) from rfl,
        PMap.get_set_self, htasks, hA.conc_eq t.asset.priority, heq]
      simp only [List.filter_append, List.filter_cons, beq_self_eq_true, if_pos,
        List.length_append]
      simp
    · rw [show (finalizeState s i t).concurrent =
          s.concurrent.set t.asset.priority (s.concurrent.get t.asset.priority - 1) from rfl,
        PMap.get_set_ne hqp, htasks, hA.conc_eq q, heq]
      have hne : (t.asset.priority == q) = false := by
        simp only [beq_eq_false_iff_ne, ne_eq]
        exact fun h => hqp h.symm
      simp [List.filter_append, List.filter_cons, hne]
  · intro q
    by_cases hqp : q = t.asset.priority
    · subst hqp
      rw [show (finalizeState s i t).concurrent =
          s.concurrent.set t.asset.priority (s.concurrent.get t.asset.priority - 1) from rfl,
        PMap.get_set_self]
      exact le_trans (Nat.sub_le _ 1) (hA.conc_le t.asset.priority)
    · rw [show (finalizeState s i t).concurrent =
          s.concurrent.set t.asset.priority (s.concurrent.get t.asset.priority - 1) from rfl,
        PMap.get_set_ne hqp]
      exact hA.conc_le q
  · intro q a ha
    exact hA.queue_prio q a ha
  · intro x hx d hd
    exact hA.deps_resolved x (hmem x hx) d hd
  · intro x hx
    exact hA.attempt_le x (hmem x hx)
  · intro x hx d hphx
    exact hA.delay_ok x (hmem x hx) d hphx

theorem finalize_invD {s : State} {i : Nat} {t : Task}
    (hD : InvD s) (hget : getTask? s.tasks i = some t)
    (hph : t.phase = .settled) : InvD (finalizeState s i t) := by
  obtain ⟨l₁, l₂, heq, hlen, hset, hrem⟩ := getTask?_decomp hget
  have hsett : (!t.isSettled) = false := by rw [Task.isSettled, hph]; rfl
  have htasks : (finalizeState s i t).tasks = l₁ ++ l₂ := by
    simp [finalizeState, hrem]
  have hAs : activeIds (finalizeState s i t) = activeIds s := by
    simp only [activeIds, htasks, heq, List.filter_append, List.filter_cons, hsett,
      Bool.false_eq_true, if_false]
  have hAll : allIds (finalizeState s i t) = allIds s := by
    rw [allIds, allIds, hAs]
    rfl
  have hmem : ∀ x, x ∈ (finalizeState s i t).tasks → x ∈ s.tasks := by
    intro x hx
    rw [htasks] at hx
    rw [heq]
    rcases List.mem_append.mp hx with h | h
    · exact List.mem_append_left _ h
    · exact List.mem_append_right _ (List.mem_cons_of_mem _ h)
  constructor
  · exact hD.ids_nodup
  · rw [hAll]
    exact hD.partition
  · intro x hx hxset
    exact hD.settled_terminal x (hmem x hx) hxset
  · exact hD.stats_loaded
  · exact hD.stats_failed
  · exact hD.stats_total
  · exact hD.load_count
  · exact hD.error_count

theorem add_invAll {s : State} (r : RawAsset) (hA : InvAll s) : InvAll (step s (.add r)) := by
  constructor
  · intro p
    exact hA.conc_eq p
  · intro p
    exact hA.conc_le p
  · intro q a ha
    by_cases hqp : q = (normalizeAsset r).priority
    · subst hqp
      rw [show (step s (.add r)).queue =
          s.queue.set (normalizeAsset r).priority
            (s.queue.get (normalizeAsset r).priority ++ [normalizeAsset r]) from rfl,
        PMap.get_set_self] at ha
      rcases List.mem_append.mp ha with h | h
      · exact hA.queue_prio _ a h
      · rw [List.mem_singleton.mp h]
    · rw [show (step s (.add r)).queue =
          s.queue.set (normalizeAsset r).priority
            (s.queue.get (normalizeAsset r).priority ++ [normalizeAsset r]) from rfl,
        PMap.get_set_ne hqp] at ha
      exact hA.queue_prio q a ha
  · intro t ht d hd
    exact hA.deps_resolved t ht d hd
  · intro t ht
    exact hA.attempt_le t ht
  · intro t ht d hph
    exact hA.delay_ok t ht d hph

theorem add_invD {s : State} (r : RawAsset) (hD : InvD s)
    (hfresh : (normalizeAsset r).id ∉ s.assets.map Asset.id) :
    InvD (step s (.add r)) := by
  have hassets : (step s (.add r)).assets = s.assets ++ [normalizeAsset r] := by
    rw [show (step s (.add r)).assets = mapSet s.assets (normalizeAsset r) from rfl,
      mapSet_of_not_mem hfresh]
  have hids : (step s (.add r)).assets.map Asset.id =
      s.assets.map Asset.id ++ [(normalizeAsset r).id] := by
    rw [hassets, List.map_append]
    rfl
  have hQ : queuedIds (step s (.add r)) = queuedIds s + {(normalizeAsset r).id} := by
    cases hp : (normalizeAsset r).priority <;>
      · simp only [queuedIds, step, hp, PMap.set, PMap.get, List.map_append, List.map_cons,
          List.map_nil, ← Multiset.coe_add, Multiset.coe_singleton, Multiset.coe_nil]
        abel
  have hAll : allIds (step s (.add r)) = allIds s + {(normalizeAsset r).id} := by
    rw [allIds, allIds, hQ]
    rw [show activeIds (step s (.add r)) = activeIds s from rfl]
    rw [show (step s (.add r)).loadedAssets = s.loadedAssets from rfl]
    rw [show (step s (.add r)).failedAssets = s.failedAssets from rfl]
    abel
  constructor
  · rw [hids]
    rw [List.nodup_append]
    exact ⟨hD.ids_nodup, List.nodup_singleton _,
      fun x hx hmem => hfresh (by rwa [List.mem_singleton.mp hmem] at hx)⟩
  · rw [hAll, hids, hD.partition, ← Multiset.coe_add]
    rfl
  · intro t ht hset
    exact hD.settled_terminal t ht hset
  · exact hD.stats_loaded
  · exact hD.stats_failed
  · rw [hassets, List.length_append, List.length_singleton]
    rw [show (step s (.add r)).stats.total = s.stats.total + 1 from rfl, hD.stats_total]
  · exact hD.load_count
  · exact hD.error_count

/-- Every step preserves the unconditional invariants. -/
theorem step_invAll {s : State} (act : Step) (hA : InvAll s) : InvAll (step s act) := by
  cases act with
  | tick dt => exact invAll_congr s rfl rfl rfl rfl rfl rfl hA
  | add r => exact add_invAll r hA
  | start =>
    simp only [step]
    split
    · exact hA
    · exact processQueue_invAll (invAll_congr s rfl rfl rfl rfl rfl rfl hA)
  | pause => exact invAll_congr s rfl rfl rfl rfl rfl rfl hA
  | resume =>
    simp only [step]
    split
    · exact hA
    · exact processQueue_invAll (invAll_congr s rfl rfl rfl rfl rfl rfl hA)
  | fetchComplete i ok =>
    simp only [step]
    split
    · split
      · split
        · rename_i oscrut t hget pscrut hph hok
          exact fetchSuccess_invAll hA hget
        · split
          · rename_i oscrut t hget pscrut hph hok hle
            exact fetchFailRetry_invAll hA hget hle
          · rename_i oscrut t hget pscrut hph hok hgt
            exact fetchFailFinal_invAll hA hget
      · exact hA
    · exact hA
  | delayDone i =>
    simp only [step]
    split
    · split
      · rename_i oscrut t hget pscrut d0 hph
        exact delayDone_invAll hA hget hph
      · exact hA
    · exact hA
  | finalize i =>
    simp only [step]
    split
    · split
      · rename_i oscrut t hget pscrut hph
        exact processQueue_invAll (finalize_invAll hA hget)
      · exact hA
    · exact hA

/-- Every step whose registration (if any) uses a fresh id preserves the
distinct-ids invariants. -/
theorem step_invD {s : State} (act : Step) (hD : InvD s)
    (hfresh : ∀ r, act = .add r → (normalizeAsset r).id ∉ s.assets.map Asset.id) :
    InvD (step s act) := by
  cases act with
  | tick dt =>
    exact invD_congr s rfl rfl rfl rfl rfl rfl [] (List.append_nil _).symm
      (fun i => rfl) (fun i => rfl) hD
  | add r => exact add_invD r hD (hfresh r rfl)
  | start =>
    simp only [step]
    split
    · exact hD
    · refine processQueue_invD (invD_congr s rfl rfl rfl rfl rfl rfl [Event.start] rfl ?_ ?_ hD)
      · intro i
        rfl
      · intro i
        rfl
  | pause =>
    exact invD_congr s rfl rfl rfl rfl rfl rfl [] (List.append_nil _).symm
      (fun i => rfl) (fun i => rfl) hD
  | resume =>
    simp only [step]
    split
    · exact hD
    · refine processQueue_invD (invD_congr s rfl rfl rfl rfl rfl rfl [] ?_ ?_ ?_ hD)
      · exact (List.append_nil _).symm
      · intro i
        rfl
      · intro i
        rfl
  | fetchComplete i ok =>
    simp only [step]
    split
    · split
      · split
        · rename_i oscrut t hget pscrut hph hok
          exact fetchSuccess_invD hD hget hph
        · split
          · rename_i oscrut t hget pscrut hph hok hle
            exact fetchFailRetry_invD hD hget hph
          · rename_i oscrut t hget pscrut hph hok hgt
            exact fetchFailFinal_invD hD hget hph
      · exact hD
    · exact hD
  | delayDone i =>
    simp only [step]
    split
    · split
      · rename_i oscrut t hget pscrut d0 hph
        exact delayDone_invD hD hget hph
      · exact hD
    · exact hD
  | finalize i =>
    simp only [step]
    split
    · split
      · rename_i oscrut t hget pscrut hph
        exact processQueue_invD (finalize_invD hD hget hph)
      · exact hD
    · exact hD

/-- Only `add` changes the registered-assets map. -/
theorem step_assets_eq {s : State} (act : Step) (h : ∀ r, act ≠ Step.add r) :
    (step s act).assets = s.assets := by
  cases act with
  | tick dt => rfl
  | add r => exact absurd rfl (h r)
  | start =>
    simp only [step]
    split
    · rfl
    · exact (processQueue_frame _).1
  | pause => rfl
  | resume =>
    simp only [step]
    split
    · rfl
    · exact (processQueue_frame _).1
  | fetchComplete i ok =>
    simp only [step]
    split
    · split
      · split
        · rfl
        · split
          · rfl
          · rfl
      · rfl
    · rfl
  | delayDone i =>
    simp only [step]
    split
    · split
      · rfl
      · rfl
    · rfl
  | finalize i =>
    simp only [step]
    split
    · split
      · exact (processQueue_frame _).1
      · rfl
    · rfl

theorem run_invAll_aux : ∀ (acts : List Step) (s : State), InvAll s → InvAll (run s acts) := by
  intro acts
  induction acts with
  | nil =>
    intro s h
    exact h
  | cons a rest ih =>
    intro s h
    exact ih _ (step_invAll a h)

/-- The unconditional invariants hold in every reachable state. -/
theorem run_invAll (L : PMap Nat) (acts : List Step) : InvAll (run (init L) acts) :=
  run_invAll_aux acts _ (invAll_init L)

theorem run_invD_aux : ∀ (acts : List Step) (s : State), InvD s →
    ((s.assets.map Asset.id ++ addIds acts).Nodup) → InvD (run s acts) := by
  intro acts
  induction acts with
  | nil =>
    intro s hD h
    exact hD
  | cons act rest ih =>
    intro s hD h
    cases act with
    | add r =>
      have hfr : (normalizeAsset r).id ∉ s.assets.map Asset.id := by
        intro hmem
        have := (List.nodup_append.mp h).2.2
        exact this hmem (by rw [show addIds (Step.add r :: rest) = r.id :: addIds rest from rfl]
                            exact List.mem_cons_self _ _)
      have hD' := add_invD r hD hfr
      have hassets : (step s (.add r)).assets = s.assets ++ [normalizeAsset r] := by
        rw [show (step s (.add r)).assets = mapSet s.assets (normalizeAsset r) from rfl,
          mapSet_of_not_mem hfr]
      apply ih _ hD'
      rw [hassets, List.map_append, List.append_assoc]
      exact h
    | tick dt =>
      apply ih _ (step_invD (.tick dt) hD (fun r hr => by cases hr))
      rw [step_assets_eq _ (fun r hr => by cases hr)]
      exact h
    | start =>
      apply ih _ (step_invD .start hD (fun r hr => by cases hr))
      rw [step_assets_eq _ (fun r hr => by cases hr)]
      exact h
    | pause =>
      apply ih _ (step_invD .pause hD (fun r hr => by cases hr))
      rw [step_assets_eq _ (fun r hr => by cases hr)]
      exact h
    | resume =>
      apply ih _ (step_invD .resume hD (fun r hr => by cases hr))
      rw [step_assets_eq _ (fun r hr => by cases hr)]
      exact h
    | fetchComplete i ok =>
      apply ih _ (step_invD (.fetchComplete i ok) hD (fun r hr => by cases hr))
      rw [step_assets_eq _ (fun r hr => by cases hr)]
      exact h
    | delayDone i =>
      apply ih _ (step_invD (.delayDone i) hD (fun r hr => by cases hr))
      rw [step_assets_eq _ (fun r hr => by cases hr)]
      exact h
    | finalize i =>
      apply ih _ (step_invD (.finalize i) hD (fun r hr => by cases hr))
      rw [step_assets_eq _ (fun r hr => by cases hr)]
      exact h

/-- The distinct-ids invariants hold in every state reachable by a run whose
registrations use pairwise-distinct ids. -/
theorem run_invD (L : PMap Nat) (acts : List Step) (h : (addIds acts).Nodup) :
    InvD (run (init L) acts) := by
  apply run_invD_aux acts _ (invD_init L)
  simpa [init] using h

/-- On success, `_attemptLoad` appends exactly the `progress` snapshot (of
the already-updated stats) followed by the `load` event — in that order. -/
theorem fetchSuccess_newEvents (s : State) (i : Nat) (t : Task) :
    (fetchSuccess s i t).trace.drop s.trace.length =
      [Event.progress (progressOf (successState s t) t.asset.id), Event.load t.asset] := by
  simp only [fetchSuccess, reportProgress, emit, successState]
  rw [List.append_assoc, List.drop_left]
  rfl

/-- On terminal failure, `_attemptLoad` appends exactly the `progress`
snapshot followed by the `error` event — in that order. -/
theorem fetchFailFinal_newEvents (s : State) (i : Nat) (t : Task) :
    (fetchFailFinal s i t).trace.drop s.trace.length =
      [Event.progress (progressOf (failState s t) t.asset.id), Event.error t.asset] := by
  simp only [fetchFailFinal, reportProgress, emit, failState]
  rw [List.append_assoc, List.drop_left]
  rfl

theorem fetchFailRetry_newEvents (s : State) (i : Nat) (t : Task) :
    (fetchFailRetry s i t).trace.drop s.trace.length = [Event.retry t.asset t.attempt] := by
  simp only [fetchFailRetry, emit]
  rw [List.drop_left]

/-- The loaded set and the failed set only ever grow. -/
theorem step_terminal_mono (s : State) (act : Step) :
    (∀ x ∈ s.loadedAssets, x ∈ (step s act).loadedAssets) ∧
    (∀ x ∈ s.failedAssets, x ∈ (step s act).failedAssets) := by
  cases act with
  | tick dt => exact ⟨fun x hx => hx, fun x hx => hx⟩
  | add r => exact ⟨fun x hx => hx, fun x hx => hx⟩
  | pause => exact ⟨fun x hx => hx, fun x hx => hx⟩
  | start =>
    simp only [step]
    split
    · exact ⟨fun x hx => hx, fun x hx => hx⟩
    · constructor
      · intro x hx
        rw [(processQueue_frame _).2.1]
        exact hx
      · intro x hx
        rw [(processQueue_frame _).2.2.1]
        exact hx
  | resume =>
    simp only [step]
    split
    · exact ⟨fun x hx => hx, fun x hx => hx⟩
    · constructor
      · intro x hx
        rw [(processQueue_frame _).2.1]
        exact hx
      · intro x hx
        rw [(processQueue_frame _).2.2.1]
        exact hx
  | fetchComplete i ok =>
    simp only [step]
    split
    · split
      · split
        · exact ⟨fun x hx => mem_addSet_of_mem _ hx, fun x hx => hx⟩
        · split
          · exact ⟨fun x hx => hx, fun x hx => hx⟩
          · exact ⟨fun x hx => hx, fun x hx => mem_addSet_of_mem _ hx⟩
      · exact ⟨fun x hx => hx, fun x hx => hx⟩
    · exact ⟨fun x hx => hx, fun x hx => hx⟩
  | delayDone i =>
    simp only [step]
    split
    · split
      · exact ⟨fun x hx => hx, fun x hx => hx⟩
      · exact ⟨fun x hx => hx, fun x hx => hx⟩
    · exact ⟨fun x hx => hx, fun x hx => hx⟩
  | finalize i =>
    simp only [step]
    split
    · split
      · constructor
        · intro x hx
          rw [(processQueue_frame _).2.1]
          exact hx
        · intro x hx
          rw [(processQueue_frame _).2.2.1]
          exact hx
      · exact ⟨fun x hx => hx, fun x hx => hx⟩
    · exact ⟨fun x hx => hx, fun x hx => hx⟩

theorem addIds_append : ∀ l₁ l₂ : List Step, addIds (l₁ ++ l₂) = addIds l₁ ++ addIds l₂ := by
  intro l₁ l₂
  induction l₁ with
  | nil => rfl
  | cons a rest ih =>
    cases a <;> simp [addIds, ih]

/-- Under the distinct-ids invariant, no id is in both terminal sets. -/
theorem loaded_failed_disjoint {s : State} (hD : InvD s) :
    ∀ j, j ∈ s.loadedAssets → j ∉ s.failedAssets := by
  intro j hjl hjf
  have hnd : (allIds s).Nodup := by
    rw [hD.partition]
    exact Multiset.coe_nodup.mpr hD.ids_nodup
  have h1 := Multiset.nodup_add.mp hnd
  exact Multiset.disjoint_left.mp h1.2.2
    (Multiset.mem_add.mpr (Or.inr (Multiset.mem_coe.mpr hjl)))
    (Multiset.mem_coe.mpr hjf)

/-- Soundness of the completion check of `_processQueue`: whenever it emits
`complete`, the payload is the current loaded/failed lists, these are
duplicate-free and disjoint, together they cover every registered resource,
and their sizes sum to the registered total. -/
theorem processQueue_complete_sound {X : State} (hA : InvAll X) (hD : InvD X)
    {su fl : List String} {dms : Nat}
    (hmem : Event.complete su fl dms ∈ (processQueue X).trace.drop X.trace.length) :
    su = (processQueue X).loadedAssets ∧ fl = (processQueue X).failedAssets ∧
    su.Nodup ∧ fl.Nodup ∧ (∀ x ∈ su, x ∉ fl) ∧
    (∀ a ∈ (processQueue X).assets,
      (a.id ∈ su ∧ a.id ∉ fl) ∨ (a.id ∈ fl ∧ a.id ∉ su)) ∧
    su.length + fl.length = (processQueue X).stats.total := by
  obtain ⟨fa, fb, fc, fd, fe, -⟩ := processAll_frame X
  have hA1 := processAll_invAll hA
  have hD1 := processAll_invD hD
  by_cases hpr : (X.paused || !X.running) = true
  · rw [processQueue_eq, if_pos hpr, List.drop_length] at hmem
    exact absurd hmem (List.not_mem_nil _)
  · by_cases hge : (processAll X).stats.loaded + (processAll X).stats.failed ≥
        (processAll X).stats.total
    · have heq : processQueue X = emit (Event.complete (processAll X).loadedAssets
          (processAll X).failedAssets ((processAll X).now - (processAll X).startTime))
          { processAll X with running := false } := by
        rw [processQueue_eq, if_neg hpr]
        dsimp only
        rw [if_pos hge]
      rw [heq] at hmem
      rw [show (emit (Event.complete (processAll X).loadedAssets (processAll X).failedAssets
            ((processAll X).now - (processAll X).startTime))
            { processAll X with running := false }).trace =
          X.trace ++ [Event.complete (processAll X).loadedAssets (processAll X).failedAssets
            ((processAll X).now - (processAll X).startTime)] from by
          simp only [emit]
          rw [fe]] at hmem
      rw [List.drop_left, List.mem_singleton] at hmem
      injection hmem with h1 h2 h3
      subst h1
      subst h2
      -- the completion condition forces the queues and in-flight multisets
      -- to be empty, so loaded ++ failed covers all registered ids
      have hcard : Multiset.card (allIds (processAll X)) =
          ((processAll X).assets.map Asset.id).length := by
        rw [hD1.partition, Multiset.coe_card]
      have hcard2 : Multiset.card (queuedIds (processAll X)) +
          Multiset.card (activeIds (processAll X)) +
          (processAll X).loadedAssets.length + (processAll X).failedAssets.length =
          (processAll X).assets.length := by
        have h := hcard
        rw [allIds] at h
        simpa [Multiset.card_add, Multiset.coe_card, List.length_map] using h
      have hge2 : (processAll X).loadedAssets.length + (processAll X).failedAssets.length ≥
          (processAll X).assets.length := by
        have h1 := hD1.stats_loaded
        have h2 := hD1.stats_failed
        have h3 := hD1.stats_total
        omega
      have hzero : Multiset.card (queuedIds (processAll X)) = 0 ∧
          Multiset.card (activeIds (processAll X)) = 0 := by omega
      have hqe : queuedIds (processAll X) = 0 := Multiset.card_eq_zero.mp hzero.1
      have hae : activeIds (processAll X) = 0 := Multiset.card_eq_zero.mp hzero.2
      have hpart : (↑(processAll X).loadedAssets : Multiset String) +
          ↑(processAll X).failedAssets = ↑((processAll X).assets.map Asset.id) := by
        have h := hD1.partition
        rw [allIds, hqe, hae] at h
        simpa using h
      have hndLF : ((↑(processAll X).loadedAssets : Multiset String) +
          ↑(processAll X).failedAssets).Nodup := by
        rw [hpart]
        exact Multiset.coe_nodup.mpr hD1.ids_nodup
      obtain ⟨hndL, hndF, hdisj⟩ := Multiset.nodup_add.mp hndLF
      rw [heq]
      refine ⟨rfl, rfl, Multiset.coe_nodup.mp hndL, Multiset.coe_nodup.mp hndF, ?_, ?_, ?_⟩
      · intro x hx hxf
        exact Multiset.disjoint_left.mp hdisj (Multiset.mem_coe.mpr hx) (Multiset.mem_coe.mpr hxf)
      · intro a ha
        have haid : a.id ∈ (↑(processAll X).loadedAssets : Multiset String) +
            ↑(processAll X).failedAssets := by
          rw [hpart]
          refine Multiset.mem_coe.mpr (List.mem_map_of_mem Asset.id ?_)
          rw [show (emit (Event.complete (processAll X).loadedAssets (processAll X).failedAssets
              ((processAll X).now - (processAll X).startTime))
              { processAll X with running := false }).assets = (processAll X).assets from rfl] at ha
          exact ha
        rcases Multiset.mem_add.mp haid with h | h
        · exact Or.inl ⟨Multiset.mem_coe.mp h, Multiset.disjoint_left.mp hdisj h⟩
        · exact Or.inr ⟨Multiset.mem_coe.mp h,
            fun hc => Multiset.disjoint_left.mp hdisj (Multiset.mem_coe.mpr hc) h⟩
      · have hlen : (processAll X).loadedAssets.length + (processAll X).failedAssets.length =
            (processAll X).assets.length := by
          have h := congrArg Multiset.card hpart
          simpa [Multiset.card_add, Multiset.coe_card, List.length_map] using h
        rw [show (emit (Event.complete (processAll X).loadedAssets (processAll X).failedAssets
              ((processAll X).now - (processAll X).startTime))
              { processAll X with running := false }).stats = (processAll X).stats from rfl]
        rw [hD1.stats_total]
        exact hlen
    · have heq : processQueue X = processAll X := by
        rw [processQueue_eq, if_neg hpr]
        dsimp only
        rw [if_neg hge]
      rw [heq, fe, List.drop_length] at hmem
      exact absurd hmem (List.not_mem_nil _)

theorem step_max (s : State) (act : Step) :
    (step s act).maxConcurrent = s.maxConcurrent := by
  cases act <;> simp only [step] <;> (repeat' split) <;>
    first
    | rfl
    | exact (processQueue_frame _).2.2.2.2.2.1

theorem run_max_aux : ∀ (acts : List Step) (s : State),
    (run s acts).maxConcurrent = s.maxConcurrent := by
  intro acts
  induction acts with
  | nil =>
    intro s
    rfl
  | cons a rest ih =>
    intro s
    rw [show run s (a :: rest) = run (step s a) rest from rfl, ih, step_max]

theorem run_max (L : PMap Nat) (acts : List Step) :
    (run (init L) acts).maxConcurrent = L :=
  run_max_aux acts (init L)

/-! ## The claims -/

/-- C10: starting a run with zero registered resources emits `start` and
then immediately `complete` with empty success and failed lists (and zero
elapsed time in the model's clock), and clears the running flag; the
scheduler does not wait. -/
theorem C10_empty_run_completes_immediately (L : PMap Nat) :
    (run (init L) [Step.start]).trace = [Event.start, Event.complete [] [] 0] ∧
    (run (init L) [Step.start]).running = false :=
  ⟨rfl, rfl⟩

/-- C2: in every reachable state of every run, for every priority class,
the number of in-flight (non-settled) tasks of that class is at most the
class's configured limit — and so is the class's in-flight counter itself;
moreover the admission loop admits nothing for a class whose counter is
not strictly below its limit (it returns the state unchanged). -/
theorem C2_per_class_concurrency_bound (L : PMap Nat) (acts : List Step) (p : Priority) :
    ((run (init L) acts).tasks.filter
        fun t => !t.isSettled && t.asset.priority == p).length ≤ L.get p ∧
    (run (init L) acts).concurrent.get p ≤ L.get p ∧
    (∀ s : State, s.maxConcurrent.get p ≤ s.concurrent.get p → processClass s p = s) := by
  have hA := run_invAll L acts
  have hle : (run (init L) acts).concurrent.get p ≤ L.get p := by
    have h := hA.conc_le p
    rwa [run_max] at h
  refine ⟨?_, hle, ?_⟩
  · have hsub : ((run (init L) acts).tasks.filter
        fun t => !t.isSettled && t.asset.priority == p).length ≤
        ((run (init L) acts).tasks.filter fun t => t.asset.priority == p).length := by
      rw [← List.countP_eq_length_filter, ← List.countP_eq_length_filter]
      exact List.countP_mono_left fun t ht h => (Bool.and_elim_right h)
    rw [← hA.conc_eq p] at hsub
    exact le_trans hsub hle
  · intro s hge
    unfold processClass
    cases hq : (s.queue.get p).length with
    | zero => rfl
    | succ n =>
      unfold processClassLoop
      rw [if_neg (by omega)]

/-- C2 witness: a class with limit 0 admits nothing, and a concrete run
respects the default medium-class limit. -/
theorem C2_witness :
    processClass (init ⟨0, 0, 0⟩) Priority.high = init ⟨0, 0, 0⟩ ∧
    (run (init defaultLimits) [Step.add rawA, Step.start]).concurrent.get Priority.medium ≤
      defaultLimits.get Priority.medium := by
  constructor
  · exact (C2_per_class_concurrency_bound ⟨0, 0, 0⟩ [] Priority.high).2.2
      (init ⟨0, 0, 0⟩) (by decide)
  · exact (C2_per_class_concurrency_bound defaultLimits
      [Step.add rawA, Step.start] Priority.medium).2.1

/-- C3: in every reachable state, every task ever admitted has all of its
prerequisites in the loaded or failed set (the terminal sets only grow, so
eligibility at admission time persists); and when the head of a class's
queue is ineligible while a slot is free, the admission loop pushes it to
the tail of that class's queue and admits nothing from that class in this
pass. -/
theorem C3_dependency_gate (L : PMap Nat) (acts : List Step) :
    (∀ t ∈ (run (init L) acts).tasks, ∀ d ∈ t.asset.dependsOn,
      d ∈ (run (init L) acts).loadedAssets ∨ d ∈ (run (init L) acts).failedAssets) ∧
    (∀ (s : State) (p : Priority) (a : Asset) (rest : List Asset),
      s.queue.get p = a :: rest → eligible s a = false →
      s.concurrent.get p < s.maxConcurrent.get p →
      (processClass s p).queue.get p = rest ++ [a] ∧ (processClass s p).tasks = s.tasks) := by
  refine ⟨(run_invAll L acts).deps_resolved, ?_⟩
  intro s p a rest hq hel hlt
  unfold processClass
  rw [hq]
  simp only [List.length_cons]
  unfold processClassLoop
  rw [if_pos hlt]
  simp only [hq]
  rw [if_neg (by simp [hel])]
  exact ⟨PMap.get_set_self _ _ _, rfl⟩

/-- C3 witness: a resource depending on a never-registered id is requeued
to the tail and not admitted. -/
theorem C3_witness :
    (processClass (run (init defaultLimits) [Step.add rawD]) Priority.medium).queue.get
        Priority.medium = [] ++ [normalizeAsset rawD] ∧
    (processClass (run (init defaultLimits) [Step.add rawD]) Priority.medium).tasks =
      (run (init defaultLimits) [Step.add rawD]).tasks :=
  (C3_dependency_gate defaultLimits [Step.add rawD]).2
    (run (init defaultLimits) [Step.add rawD]) Priority.medium (normalizeAsset rawD) []
    (by decide) (by decide) (by decide)

/-- C6 counterexample: `add` performs no duplicate-id check.  Registering
the same descriptor twice enqueues it twice and bumps `stats.total` to 2 —
the second call neither fails nor leaves the state unchanged, contradicting
the claim. -/
theorem C6_counterexample :
    (run (init defaultLimits) [Step.add rawA, Step.add rawA]).stats.total = 2 ∧
    (run (init defaultLimits) [Step.add rawA, Step.add rawA]).queue.medium.length = 2 ∧
    (run (init defaultLimits) [Step.add rawA]).stats.total = 1 := by
  decide

/-- C6 (amended): registration never fails.  Every `add` — fresh id or
duplicate — enqueues the normalized descriptor at the tail of its priority
class's queue and increments the total, remaining and per-class total
counters; a duplicate id additionally overwrites the assets-map entry but
is NOT rejected. -/
theorem C6_add_always_enqueues_and_counts (s : State) (r : RawAsset) :
    (step s (.add r)).stats.total = s.stats.total + 1 ∧
    (step s (.add r)).stats.remaining = s.stats.remaining + 1 ∧
    ((step s (.add r)).stats.perClass.get (normalizeAsset r).priority).total =
      (s.stats.perClass.get (normalizeAsset r).priority).total + 1 ∧
    (step s (.add r)).queue.get (normalizeAsset r).priority =
      s.queue.get (normalizeAsset r).priority ++ [normalizeAsset r] ∧
    (step s (.add r)).assets = mapSet s.assets (normalizeAsset r) ∧
    (step s (.add r)).trace = s.trace := by
  refine ⟨rfl, rfl, ?_, ?_, rfl, rfl⟩
  · rw [show (step s (.add r)).stats.perClass =
        s.stats.perClass.set (normalizeAsset r).priority
          { s.stats.perClass.get (normalizeAsset r).priority with
            total := (s.stats.perClass.get (normalizeAsset r).priority).total + 1 } from rfl,
      PMap.get_set_self]
  · rw [show (step s (.add r)).queue =
        s.queue.set (normalizeAsset r).priority
          (s.queue.get (normalizeAsset r).priority ++ [normalizeAsset r]) from rfl,
      PMap.get_set_self]

/-- C8 counterexample: `pause()` only sets the flag; it emits nothing — in
particular no `exit` event — contradicting the claim that every `pause()`
call emits one. -/
theorem C8_counterexample :
    (step (init defaultLimits) Step.pause).paused = true ∧
    (step (init defaultLimits) Step.pause).trace = [] ∧
    Event.exited ∉ (step (init defaultLimits) Step.pause).trace := by
  decide

/-- C8 (amended): `pause()` sets the paused flag (idempotently) and emits
no event; while paused the admission loop is a no-op, so no new resource is
admitted; fetch settlements and backoff expirations of in-flight resources
are processed identically regardless of the flag (they run to a terminal
state); `resume()` clears the flag and re-invokes the admission loop, and
is a no-op when not paused. -/
theorem C8_pause_flag_no_event (s : State) (i : Nat) (ok : Bool) :
    step s Step.pause = { s with paused := true } ∧
    (s.paused = true → processQueue s = s) ∧
    (s.paused = true → step s Step.resume = processQueue { s with paused := false }) ∧
    (s.paused = false → step s Step.resume = s) ∧
    step { s with paused := true } (Step.fetchComplete i ok) =
      { step s (Step.fetchComplete i ok) with paused := true } ∧
    step { s with paused := true } (Step.delayDone i) =
      { step s (Step.delayDone i) with paused := true } := by
  refine ⟨rfl, ?_, ?_, ?_, ?_, ?_⟩
  · intro h
    rw [processQueue_eq, if_pos (by rw [h]; rfl)]
  · intro h
    simp [step, h]
  · intro h
    simp [step, h]
  · cases hget : getTask? s.tasks i with
    | none => simp [step, hget]
    | some t =>
      cases hph : t.phase with
      | awaitFetch =>
        by_cases hok : (supportedType t.asset.type && ok) = true
        · simp [step, hget, hph, hok, fetchSuccess, reportProgress, emit, progressOf]
        · by_cases hle : t.attempt ≤ t.asset.retries
          · simp [step, hget, hph, hok, hle, fetchFailRetry, emit]
          · simp [step, hget, hph, hok, hle, fetchFailFinal, reportProgress, emit, progressOf]
      | awaitDelay d => simp [step, hget, hph]
      | settled => simp [step, hget, hph]
  · cases hget : getTask? s.tasks i with
    | none => simp [step, hget]
    | some t =>
      cases hph : t.phase with
      | awaitFetch => simp [step, hget, hph]
      | awaitDelay d => simp [step, hget, hph]
      | settled => simp [step, hget, hph]

/-- C8 witness: the admission loop is a no-op on a concrete paused state. -/
theorem C8_witness :
    processQueue { init defaultLimits with paused := true } =
      { init defaultLimits with paused := true } :=
  (C8_pause_flag_no_event { init defaultLimits with paused := true } 0 true).2.1 rfl

/-- C9 counterexample: on a successful load, the source calls
`_reportProgress` (line 101) BEFORE `emit("load", …)` (line 102), so the
`progress` snapshot (index 1 of the trace) precedes the `load` event
(index 2) — contradicting the claim that `load` is emitted before the
`progress` snapshot. -/
theorem C9_counterexample :
    ((run (init defaultLimits) [Step.add rawA, Step.start, Step.fetchComplete 0 true]).trace.map
      Event.tag) = [Tag.start, Tag.progress, Tag.load] ∧
    (run (init defaultLimits)
      [Step.add rawA, Step.start, Step.fetchComplete 0 true]).loadedAssets = ["a"] := by
  decide

/-- C9 (amended): for every terminal outcome the `progress` snapshot is
emitted first, then the outcome event: on success the step appends exactly
`[progress, load descriptor]`, and on terminal failure exactly
`[progress, error descriptor]` — the reverse of the claimed order. -/
theorem C9_progress_precedes_outcome (s : State) (i : Nat) (ok : Bool) (t : Task)
    (hget : getTask? s.tasks i = some t) (hph : t.phase = .awaitFetch) :
    ((supportedType t.asset.type && ok) = true →
      newEvents s (.fetchComplete i ok) =
        [Event.progress (progressOf (successState s t) t.asset.id), Event.load t.asset]) ∧
    ((supportedType t.asset.type && ok) = false → t.asset.retries < t.attempt →
      newEvents s (.fetchComplete i ok) =
        [Event.progress (progressOf (failState s t) t.asset.id), Event.error t.asset]) := by
  constructor
  · intro hok
    rw [newEvents, show step s (.fetchComplete i ok) = fetchSuccess s i t from by
      simp [step, hget, hph, hok]]
    exact fetchSuccess_newEvents s i t
  · intro hok hgt
    rw [newEvents, show step s (.fetchComplete i ok) = fetchFailFinal s i t from by
      simp [step, hget, hph, hok, Nat.not_le.mpr hgt]]
    exact fetchFailFinal_newEvents s i t

/-- C9 witness: a concrete successful load appends a `progress` event and
then the `load` event. -/
theorem C9_witness :
    (newEvents (run (init defaultLimits) [Step.add rawA, Step.start])
      (Step.fetchComplete 0 true)).map Event.tag = [Tag.progress, Tag.load] := by
  have h := C9_progress_precedes_outcome (run (init defaultLimits) [Step.add rawA, Step.start])
    0 true ⟨normalizeAsset rawA, 1, .awaitFetch, 0⟩ (by decide) rfl
  rw [h.1 (by decide)]
  rfl

/-- C7 counterexample: a resource of unsupported kind "video" with the
default retry budget 1 gets a `retry` event and a 500 ms backoff after its
first failed attempt — the retry budget is NOT bypassed and a retry IS
attempted, contradicting the claim of an immediate terminal failure. -/
theorem C7_counterexample :
    supportedType (normalizeAsset rawV).type = false ∧
    (normalizeAsset rawV).retries = 1 ∧
    ((run (init defaultLimits) [Step.add rawV, Step.start, Step.fetchComplete 0 true]).trace.map
      Event.tag) = [Tag.start, Tag.retry] ∧
    ((run (init defaultLimits) [Step.add rawV, Step.start, Step.fetchComplete 0 true]).tasks.map
      Task.phase) = [Phase.awaitDelay 500] := by
  decide

/-- C7 (amended): for an unsupported kind, `_realLoad` rejects without
consulting the transport, so the attempt's outcome is failure regardless of
the environment's fetch result (the step is identical to one whose
transport failed); but the normal retry machinery still applies: while the
budget allows it the controller emits `retry` and schedules the backoff
delay, and only after the final attempt does it emit `progress` then
`error`. -/
theorem C7_unsupported_kind_fails_but_retries (s : State) (i : Nat) (ok : Bool) (t : Task)
    (hget : getTask? s.tasks i = some t) (hph : t.phase = .awaitFetch)
    (hunsup : supportedType t.asset.type = false) :
    step s (.fetchComplete i ok) = step s (.fetchComplete i false) ∧
    (t.attempt ≤ t.asset.retries →
      newEvents s (.fetchComplete i ok) = [Event.retry t.asset t.attempt] ∧
      (step s (.fetchComplete i ok)).tasks = setTask s.tasks i
        { t with phase := .awaitDelay (500 * 2 ^ (t.attempt - 1)) }) ∧
    (t.asset.retries < t.attempt →
      (newEvents s (.fetchComplete i ok)).map Event.tag = [Tag.progress, Tag.error]) := by
  refine ⟨?_, ?_, ?_⟩
  · simp [step, hget, hph, hunsup]
  · intro hle
    have hstep : step s (.fetchComplete i ok) = fetchFailRetry s i t := by
      simp [step, hget, hph, hunsup, hle]
    constructor
    · rw [newEvents, hstep]
      exact fetchFailRetry_newEvents s i t
    · rw [hstep]
      rfl
  · intro hgt
    have hstep : step s (.fetchComplete i ok) = fetchFailFinal s i t := by
      simp [step, hget, hph, hunsup, Nat.not_le.mpr hgt]
    rw [newEvents, hstep, fetchFailFinal_newEvents s i t]
    rfl

/-- C7 witness: the concrete unsupported-kind resource draws a `retry`
event even though the environment reported transport success. -/
theorem C7_witness :
    newEvents (run (init defaultLimits) [Step.add rawV, Step.start]) (Step.fetchComplete 0 true)
      = [Event.retry (normalizeAsset rawV) 1] := by
  have h := C7_unsupported_kind_fails_but_retries
    (run (init defaultLimits) [Step.add rawV, Step.start]) 0 true
    ⟨normalizeAsset rawV, 1, .awaitFetch, 0⟩ (by decide) rfl (by decide)
  exact (h.2.1 (by decide)).1

/-- C5 counterexample: the source computes `eta = avgTime * remaining`
(line 175) with NO division by the summed concurrency limits.  In the
concrete run the snapshot reports `etaMs = 1200` (average 600 × remaining
2) while the claim's formula gives `600 × 2 / max(1, 3+2+1) = 200`. -/
theorem C5_counterexample :
    progressEtas runC5.trace = [1200] ∧
    progressRemainings runC5.trace = [2] ∧
    runC5.etaSamples = [600] ∧
    etaSpecFormula [600] 2 defaultLimits = 200 ∧
    (1200 : Int) ≠ 200 := by
  decide

/-- C5 (amended): the reported `etaMs` equals `round(mean(samples)) ×
remaining` with no division by any concurrency limit — 0 when there are no
samples or when `remaining` is 0 — and the sample recorded by a success is
the wall-clock time since the task's admission (`Date.now() - start`,
line 95), which therefore INCLUDES earlier failed attempts and their
backoff delays, not just the successful attempt. -/
theorem C5_eta_formula_and_samples (s : State) (cur : String) (i : Nat) (t : Task)
    (ok : Bool) :
    (s.etaSamples = [] → (progressOf s cur).etaMs = 0) ∧
    (s.stats.remaining = 0 → (progressOf s cur).etaMs = 0) ∧
    (s.etaSamples ≠ [] → (progressOf s cur).etaMs =
      (jsRoundDiv s.etaSamples.sum s.etaSamples.length : Int) * s.stats.remaining) ∧
    (getTask? s.tasks i = some t → t.phase = .awaitFetch →
      (supportedType t.asset.type && ok) = true →
      (step s (.fetchComplete i ok)).etaSamples = s.etaSamples ++ [s.now - t.start]) := by
  refine ⟨?_, ?_, ?_, ?_⟩
  · intro h
    simp [progressOf, avgTime, h]
  · intro h
    simp [progressOf, h]
  · intro h
    rw [show (progressOf s cur).etaMs = (avgTime s.etaSamples : Int) * s.stats.remaining
      from rfl, avgTime, if_neg (fun hc => h (List.length_eq_zero.mp hc))]
  · intro hget hph hok
    rw [show step s (.fetchComplete i ok) = fetchSuccess s i t from by
      simp [step, hget, hph, hok]]
    rfl

/-- C5 witness: a fresh scheduler reports `etaMs = 0`, and a concrete
success after 7 ms records the 7 ms full-cycle sample. -/
theorem C5_witness :
    (progressOf (init defaultLimits) "x").etaMs = 0 ∧
    (step (run (init defaultLimits) [Step.add rawA, Step.start, Step.tick 7])
      (Step.fetchComplete 0 true)).etaSamples = [7] := by
  constructor
  · exact (C5_eta_formula_and_samples (init defaultLimits) "x" 0
      ⟨normalizeAsset rawA, 1, .awaitFetch, 0⟩ true).1 rfl
  · have h := (C5_eta_formula_and_samples
      (run (init defaultLimits) [Step.add rawA, Step.start, Step.tick 7]) "x" 0
      ⟨normalizeAsset rawA, 1, .awaitFetch, 0⟩ true).2.2.2 (by decide) rfl (by decide)
    rw [h]
    decide

/-- C4: the retry controller's attempt counter never exceeds `retries + 1`
(so at most `r + 1` fetches are performed); a task waiting out a backoff
after failed attempt `k` waits exactly `500 × 2^(k-1)` ms and only does so
while `k ≤ retries`; and for any id, at most one of `load`/`error` is ever
emitted — exactly one once the resource's attempt cycle has settled. -/
theorem C4_retry_budget_and_single_outcome (L : PMap Nat) (acts : List Step)
    (hnd : (addIds acts).Nodup) :
    (∀ t ∈ (run (init L) acts).tasks, t.fetchesMade ≤ t.asset.retries + 1) ∧
    (∀ t ∈ (run (init L) acts).tasks, ∀ d, t.phase = .awaitDelay d →
      d = 500 * 2 ^ (t.attempt - 1) ∧ t.attempt ≤ t.asset.retries) ∧
    (∀ j : String, (run (init L) acts).trace.countP (isLoadOf j) +
      (run (init L) acts).trace.countP (isErrorOf j) ≤ 1) ∧
    (∀ t ∈ (run (init L) acts).tasks, t.isSettled = true →
      (run (init L) acts).trace.countP (isLoadOf t.asset.id) +
        (run (init L) acts).trace.countP (isErrorOf t.asset.id) = 1) := by
  have hA := run_invAll L acts
  have hD := run_invD L acts hnd
  refine ⟨?_, ?_, ?_, ?_⟩
  · intro t ht
    exact (hA.attempt_le t ht).2
  · intro t ht d hph
    obtain ⟨h1, h2⟩ := hA.delay_ok t ht d hph
    exact ⟨h2, h1⟩
  · intro j
    rw [hD.load_count j, hD.error_count j]
    by_cases hl : j ∈ (run (init L) acts).loadedAssets
    · rw [if_pos hl, if_neg (loaded_failed_disjoint hD j hl)]
    · rw [if_neg hl]
      by_cases hf : j ∈ (run (init L) acts).failedAssets
      · rw [if_pos hf]
      · rw [if_neg hf]
        omega
  · intro t ht hset
    rw [hD.load_count, hD.error_count]
    rcases hD.settled_terminal t ht hset with h | h
    · rw [if_pos h, if_neg (loaded_failed_disjoint hD _ h)]
    · rw [if_pos h, if_neg (fun hc => loaded_failed_disjoint hD _ hc h)]

/-- C4 witness: a concrete resolved resource has exactly one terminal
event. -/
theorem C4_witness :
    (run (init defaultLimits) [Step.add rawA, Step.start,
        Step.fetchComplete 0 true]).trace.countP (isLoadOf "a") +
      (run (init defaultLimits) [Step.add rawA, Step.start,
        Step.fetchComplete 0 true]).trace.countP (isErrorOf "a") ≤ 1 :=
  (C4_retry_budget_and_single_outcome defaultLimits
    [Step.add rawA, Step.start, Step.fetchComplete 0 true] (by decide)).2.2.1 "a"

/-- C1: in a run whose registered ids are pairwise distinct, whenever the
`complete` event fires its payload is the current loaded and failed id
lists; these are duplicate-free and disjoint, every registered resource is
in exactly one of them, and their sizes sum to the registered total.
Moreover both terminal sets only ever grow, step by step. -/
theorem C1_completion_partition (L : PMap Nat) (acts : List Step) (act : Step)
    (hnd : (addIds (acts ++ [act])).Nodup) :
    (∀ su fl dms, Event.complete su fl dms ∈ newEvents (run (init L) acts) act →
      su = (step (run (init L) acts) act).loadedAssets ∧
      fl = (step (run (init L) acts) act).failedAssets ∧
      su.Nodup ∧ fl.Nodup ∧ (∀ x ∈ su, x ∉ fl) ∧
      (∀ a ∈ (step (run (init L) acts) act).assets,
        (a.id ∈ su ∧ a.id ∉ fl) ∨ (a.id ∈ fl ∧ a.id ∉ su)) ∧
      su.length + fl.length = (step (run (init L) acts) act).stats.total) ∧
    (∀ x ∈ (run (init L) acts).loadedAssets, x ∈ (step (run (init L) acts) act).loadedAssets) ∧
    (∀ x ∈ (run (init L) acts).failedAssets,
      x ∈ (step (run (init L) acts) act).failedAssets) := by
  have hndacts : (addIds acts).Nodup := by
    rw [addIds_append] at hnd
    exact (List.nodup_append.mp hnd).1
  have hA := run_invAll L acts
  have hD := run_invD L acts hndacts
  refine ⟨?_, (step_terminal_mono _ act).1, (step_terminal_mono _ act).2⟩
  intro su fl dms hmem
  set s := run (init L) acts with hs
  clear_value s
  cases act with
  | tick dt =>
    rw [newEvents, show (step s (.tick dt)).trace = s.trace from rfl,
      List.drop_length] at hmem
    exact absurd hmem (List.not_mem_nil _)
  | add r =>
    rw [newEvents, show (step s (.add r)).trace = s.trace from rfl,
      List.drop_length] at hmem
    exact absurd hmem (List.not_mem_nil _)
  | pause =>
    rw [newEvents, show (step s .pause).trace = s.trace from rfl,
      List.drop_length] at hmem
    exact absurd hmem (List.not_mem_nil _)
  | start =>
    by_cases hrun : s.running
    · rw [newEvents, show step s .start = s from by simp [step, hrun],
        List.drop_length] at hmem
      exact absurd hmem (List.not_mem_nil _)
    · have hstep : step s .start =
          processQueue { emit .start { s with startTime := s.now } with running := true } := by
        simp [step, hrun]
      have hAX : InvAll { emit .start { s with startTime := s.now } with running := true } :=
        invAll_congr s rfl rfl rfl rfl rfl rfl hA
      have hDX : InvD { emit .start { s with startTime := s.now } with running := true } :=
        invD_congr s rfl rfl rfl rfl rfl rfl [Event.start] rfl (fun _ => rfl) (fun _ => rfl) hD
      have hXtr : ({ emit .start { s with startTime := s.now } with running := true }).trace =
          s.trace ++ [Event.start] := rfl
      obtain htr | ⟨d, htr⟩ := (processQueue_frame
        { emit .start { s with startTime := s.now } with running := true }).2.2.2.2.2.2.2.2.2
      · rw [newEvents, hstep, htr, hXtr, List.drop_left] at hmem
        rw [List.mem_singleton] at hmem
        cases hmem
      · rw [newEvents, hstep, htr, hXtr, List.append_assoc, List.drop_left] at hmem
        simp only [List.cons_append, List.nil_append] at hmem
        rcases List.mem_cons.mp hmem with h | h
        · cases h
        · rw [List.mem_singleton] at h
          have hmem' : Event.complete su fl dms ∈
              (processQueue { emit .start { s with startTime := s.now } with
                running := true }).trace.drop
                ({ emit .start { s with startTime := s.now } with running := true
                  }).trace.length := by
            rw [htr, List.drop_left, h]
            exact List.mem_singleton_self _
          rw [hstep]
          exact processQueue_complete_sound hAX hDX hmem'
  | resume =>
    by_cases hp : s.paused
    · have hstep : step s .resume = processQueue { s with paused := false } := by
        simp [step, hp]
      have hAX : InvAll { s with paused := false } :=
        invAll_congr s rfl rfl rfl rfl rfl rfl hA
      have hDX : InvD { s with paused := false } :=
        invD_congr s rfl rfl rfl rfl rfl rfl [] (List.append_nil _).symm
          (fun _ => rfl) (fun _ => rfl) hD
      have hmem' : Event.complete su fl dms ∈
          (processQueue { s with paused := false }).trace.drop
            ({ s with paused := false }).trace.length := by
        rw [newEvents, hstep] at hmem
        exact hmem
      rw [hstep]
      exact processQueue_complete_sound hAX hDX hmem'
    · rw [newEvents, show step s .resume = s from by simp [step, hp],
        List.drop_length] at hmem
      exact absurd hmem (List.not_mem_nil _)
  | fetchComplete i ok =>
    cases hget : getTask? s.tasks i with
    | none =>
      rw [newEvents, show step s (.fetchComplete i ok) = s from by simp [step, hget],
        List.drop_length] at hmem
      exact absurd hmem (List.not_mem_nil _)
    | some t =>
      cases hph : t.phase with
      | awaitFetch =>
        by_cases hok : (supportedType t.asset.type && ok) = true
        · rw [newEvents, show step s (.fetchComplete i ok) = fetchSuccess s i t from by
            simp [step, hget, hph, hok], fetchSuccess_newEvents] at hmem
          simp at hmem
        · by_cases hle : t.attempt ≤ t.asset.retries
          · rw [newEvents, show step s (.fetchComplete i ok) = fetchFailRetry s i t from by
              simp [step, hget, hph, hok, hle], fetchFailRetry_newEvents] at hmem
            simp at hmem
          · rw [newEvents, show step s (.fetchComplete i ok) = fetchFailFinal s i t from by
              simp [step, hget, hph, hok, hle], fetchFailFinal_newEvents] at hmem
            simp at hmem
      | awaitDelay d =>
        rw [newEvents, show step s (.fetchComplete i ok) = s from by simp [step, hget, hph],
          List.drop_length] at hmem
        exact absurd hmem (List.not_mem_nil _)
      | settled =>
        rw [newEvents, show step s (.fetchComplete i ok) = s from by simp [step, hget, hph],
          List.drop_length] at hmem
        exact absurd hmem (List.not_mem_nil _)
  | delayDone i =>
    cases hget : getTask? s.tasks i with
    | none =>
      rw [newEvents, show step s (.delayDone i) = s from by simp [step, hget],
        List.drop_length] at hmem
      exact absurd hmem (List.not_mem_nil _)
    | some t =>
      cases hph : t.phase with
      | awaitFetch =>
        rw [newEvents, show step s (.delayDone i) = s from by simp [step, hget, hph],
          List.drop_length] at hmem
        exact absurd hmem (List.not_mem_nil _)
      | awaitDelay d =>
        rw [newEvents, show (step s (.delayDone i)).trace = s.trace from by
          simp [step, hget, hph], List.drop_length] at hmem
        exact absurd hmem (List.not_mem_nil _)
      | settled =>
        rw [newEvents, show step s (.delayDone i) = s from by simp [step, hget, hph],
          List.drop_length] at hmem
        exact absurd hmem (List.not_mem_nil _)
  | finalize i =>
    cases hget : getTask? s.tasks i with
    | none =>
      rw [newEvents, show step s (.finalize i) = s from by simp [step, hget],
        List.drop_length] at hmem
      exact absurd hmem (List.not_mem_nil _)
    | some t =>
      cases hph : t.phase with
      | awaitFetch =>
        rw [newEvents, show step s (.finalize i) = s from by simp [step, hget, hph],
          List.drop_length] at hmem
        exact absurd hmem (List.not_mem_nil _)
      | awaitDelay d =>
        rw [newEvents, show step s (.finalize i) = s from by simp [step, hget, hph],
          List.drop_length] at hmem
        exact absurd hmem (List.not_mem_nil _)
      | settled =>
        have hstep : step s (.finalize i) = processQueue (finalizeState s i t) := by
          simp only [step, hget, hph]
          rfl
        have hAX : InvAll (finalizeState s i t) := finalize_invAll hA hget
        have hDX : InvD (finalizeState s i t) := finalize_invD hD hget hph
        have hmem' : Event.complete su fl dms ∈
            (processQueue (finalizeState s i t)).trace.drop
              (finalizeState s i t).trace.length := by
          rw [newEvents, hstep] at hmem
          exact hmem
        rw [hstep]
        exact processQueue_complete_sound hAX hDX hmem'

/-- C1 witness: a concrete single-resource run completes with the partition
property. -/
theorem C1_witness :
    (["a"] : List String).length + ([] : List String).length =
      (step (run (init defaultLimits) [Step.add rawA, Step.start, Step.fetchComplete 0 true])
        (Step.finalize 0)).stats.total := by
  have h := C1_completion_partition defaultLimits
    [Step.add rawA, Step.start, Step.fetchComplete 0 true] (Step.finalize 0) (by decide)
  exact (h.1 ["a"] [] 0 (by decide)).2.2.2.2.2.2

end Preloader
